import Mathlib

/-!
Verification of the holdpty core against its specification.

The repository is TypeScript; the definitions below are a shallow embedding
of its data model and operations into Lean.  Bytes are modelled as `Nat`
(`Buffer` cells), byte sequences as `List Nat`, and the fixed-size `Buffer`
backing the ring as a function `Nat → Nat` (only indices below `capacity`
are ever read).  Fallible operations return `Except`/`Option`.
-/

set_option maxHeartbeats 1000000

/- ──────────────────────────────────────────────────────────────────
   Ring buffer (src/ring-buffer.ts)
   ────────────────────────────────────────────────────────────────── -/

/-- Default buffer size: 1 MB (`DEFAULT_CAPACITY` in ring-buffer.ts). -/
def DEFAULT_CAPACITY : Nat := 1024 * 1024

/-- State of `class RingBuffer`: the backing `Buffer` (a function over cell
indices; cells start zeroed via `Buffer.alloc`), the capacity, the next
write position `head`, and the total bytes ever `written`. -/
structure RingBuffer where
  capacity : Nat
  buf : Nat → Nat
  head : Nat
  written : Nat

/-- `new RingBuffer(capacity)` (the `capacity > 0` constructor precondition
is carried as a hypothesis of the theorems instead of an exception). -/
def RingBuffer.new (c : Nat) : RingBuffer :=
  { capacity := c, buf := fun _ => 0, head := 0, written := 0 }

/-- `RingBuffer.write(data)`.  Mirrors the three branches of the source:
data at least as large as the buffer (keep only the trailing capacity
bytes, head := 0), a fit without wrapping, and the wrapping copy. -/
def RingBuffer.write (st : RingBuffer) (data : List Nat) : RingBuffer :=
  if data.length = 0 then st
  else if st.capacity ≤ data.length then
    { st with
      buf := fun i =>
        if i < st.capacity then data.getD (data.length - st.capacity + i) 0 else st.buf i,
      head := 0,
      written := st.written + data.length }
  else if data.length ≤ st.capacity - st.head then
    { st with
      buf := fun i =>
        if st.head ≤ i ∧ i < st.head + data.length then data.getD (i - st.head) 0 else st.buf i,
      head := (st.head + data.length) % st.capacity,
      written := st.written + data.length }
  else
    { st with
      buf := fun i =>
        if st.head ≤ i ∧ i < st.capacity then data.getD (i - st.head) 0
        else if i < data.length - (st.capacity - st.head) then
          data.getD ((st.capacity - st.head) + i) 0
        else st.buf i,
      head := (st.head + data.length) % st.capacity,
      written := st.written + data.length }

/-- `get size()`: `Math.min(this.written, this.capacity)`. -/
def RingBuffer.size (st : RingBuffer) : Nat := min st.written st.capacity

/-- `get totalWritten()`. -/
def RingBuffer.totalWritten (st : RingBuffer) : Nat := st.written

/-- `RingBuffer.read()`: contiguous copy of the most recent bytes.  The
method only reads fields (`Buffer.from`/`copy` allocate fresh storage), so
in the embedding it is a pure function of the state: reading cannot change
`size` or `totalWritten`. -/
def RingBuffer.read (st : RingBuffer) : List Nat :=
  if st.size = 0 then []
  else if st.written ≤ st.capacity then (List.range st.size).map st.buf
  else
    (List.range st.capacity).map fun j =>
      if j < st.capacity - st.head then st.buf (st.head + j)
      else st.buf (j - (st.capacity - st.head))

/-- `RingBuffer.clear()`. -/
def RingBuffer.clear (st : RingBuffer) : RingBuffer :=
  { st with head := 0, written := 0 }

/-- The byte history a ring with capacity `C` must preserve: the last
`min |h| C` bytes of the concatenated write history `h`. -/
def lastBytes (C : Nat) (h : List Nat) : List Nat :=
  h.drop (h.length - min h.length C)

/-- Invariant tying a ring state to the concatenation `h` of everything
written so far.  Below capacity the data sits at the front of the store;
past capacity the most recent `capacity` bytes sit rotated starting at
`head` (`p` ranges over the physical cell holding logical offset `i`). -/
def RingInv (C : Nat) (h : List Nat) (st : RingBuffer) : Prop :=
  st.capacity = C ∧
  st.written = h.length ∧
  (st.written ≤ C →
    st.head = (if st.written < C then st.written else 0) ∧
    ∀ i < st.written, st.buf i = h.getD i 0) ∧
  (C < st.written → st.head < C ∧
    ∀ i p, i < C → p < C → (p = st.head + i ∨ p + C = st.head + i) →
      st.buf p = h.getD (st.written - C + i) 0)

theorem ringInv_new (C : Nat) (hC : 0 < C) : RingInv C [] (RingBuffer.new C) := by
  refine ⟨rfl, rfl, ?_, ?_⟩
  · intro _
    refine ⟨by simp [RingBuffer.new, hC], ?_⟩
    intro i hi
    simp [RingBuffer.new] at hi
  · intro hcon
    simp [RingBuffer.new] at hcon

/-- Helper: reduce `a % C` to a subtraction when `a < 2 * C`. -/
theorem mod_two_lt (a C : Nat) (hC : 0 < C) (h : a < 2 * C) :
    a % C = if a < C then a else a - C := by
  split
  · exact Nat.mod_eq_of_lt (by assumption)
  · rw [Nat.mod_eq_sub_mod (by omega), Nat.mod_eq_of_lt (by omega)]

theorem ringInv_write (C : Nat) (hC : 0 < C) (h : List Nat) (st : RingBuffer)
    (hinv : RingInv C h st) (d : List Nat) :
    RingInv C (h ++ d) (st.write d) := by
  obtain ⟨hcap, hw, hsmall, hbig⟩ := hinv
  unfold RingBuffer.write
  simp only [hcap]
  by_cases h0 : d.length = 0
  · have hd : d = [] := List.eq_nil_of_length_eq_zero h0
    subst hd
    rw [if_pos h0]
    simpa [List.append_nil] using ⟨hcap, hw, hsmall, hbig⟩
  · rw [if_neg h0]
    by_cases hbigwrite : C ≤ d.length
    · -- data at least as large as the buffer: keep the tail, head := 0
      rw [if_pos hbigwrite]
      refine ⟨rfl, by simp [hw], ?_, ?_⟩
      · -- new written ≤ C forces written = 0 and d.length = C
        intro hle
        simp only [] at hle ⊢
        have h3 : h = [] := List.eq_nil_of_length_eq_zero (by omega)
        subst h3
        refine ⟨by rw [if_neg (by omega)], ?_⟩
        intro i hi
        rw [if_pos (show i < C by omega), List.nil_append]
        congr 1
        omega
      · intro hgt
        simp only [] at hgt ⊢
        refine ⟨hC, ?_⟩
        intro i p hi hp hrel
        have hpi : p = i := by omega
        subst hpi
        rw [if_pos hp, List.getD_append_right h d 0 _ (by omega)]
        congr 1
        omega
    · rw [if_neg hbigwrite]
      have hdC : d.length < C := by omega
      by_cases hnowrap : d.length ≤ C - st.head
      · -- fits without wrapping
        rw [if_pos hnowrap]
        by_cases hcase : st.written ≤ C
        · obtain ⟨hhead, hpt⟩ := hsmall hcase
          by_cases hfull : st.written = C
          · -- buffer exactly full before the write: head = 0
            have hhead0 : st.head = 0 := by
              rw [hhead, if_neg (by omega)]
            refine ⟨rfl, by simp [hw], ?_, ?_⟩
            · intro hle
              simp only [] at hle
              omega
            · intro hgt
              simp only [] at hgt ⊢
              have hh : (st.head + d.length) % C = d.length := by
                rw [hhead0, Nat.zero_add, Nat.mod_eq_of_lt hdC]
              rw [hh]
              refine ⟨hdC, ?_⟩
              intro i p hi hp hrel
              rcases hrel with hrel | hrel
              · -- p = d.length + i : untouched old byte
                rw [if_neg (by omega), hpt p (by omega),
                  List.getD_append h d 0 _ (by omega)]
                congr 1
                omega
              · -- p + C = d.length + i : freshly written byte
                rw [if_pos (by omega), List.getD_append_right h d 0 _ (by omega)]
                congr 1
                omega
          · -- strictly below capacity: stays in the linear regime
            have hhead' : st.head = st.written := by
              rw [hhead, if_pos (by omega)]
            refine ⟨rfl, by simp [hw], ?_, ?_⟩
            · intro hle
              simp only [] at hle ⊢
              refine ⟨?_, ?_⟩
              · rw [mod_two_lt _ _ hC (by omega)]
                split_ifs <;> omega
              · intro i hi
                by_cases hi2 : i < st.written
                · rw [if_neg (by omega), hpt i hi2,
                    List.getD_append h d 0 _ (by omega)]
                · rw [if_pos (by omega), List.getD_append_right h d 0 _ (by omega)]
                  congr 1
                  omega
            · intro hgt
              simp only [] at hgt
              omega
        · -- previous state already wrapped
          obtain ⟨hheadlt, hpt⟩ := hbig (by omega)
          refine ⟨rfl, by simp [hw], ?_, ?_⟩
          · intro hle
            simp only [] at hle
            omega
          · intro hgt
            simp only [] at hgt ⊢
            have hh : (st.head + d.length) % C
                = if st.head + d.length < C then st.head + d.length else 0 := by
              rw [mod_two_lt _ _ hC (by omega)]
              split_ifs <;> omega
            rw [hh]
            refine ⟨by split_ifs <;> omega, ?_⟩
            intro i p hi hp hrel
            by_cases hc : st.head + d.length < C
            · rw [if_pos hc] at hrel
              by_cases hnew : d.length + i < C
              · -- untouched old byte at old rotated offset d.length + i
                rw [if_neg (by omega),
                  hpt (d.length + i) p (by omega) hp (by omega),
                  List.getD_append h d 0 _ (by omega)]
                congr 1
                omega
              · -- freshly written byte
                rw [if_pos (by omega), List.getD_append_right h d 0 _ (by omega)]
                congr 1
                omega
            · rw [if_neg hc] at hrel
              have hpi : p = i := by omega
              subst hpi
              by_cases hnew : d.length + p < C
              · rw [if_neg (by omega),
                  hpt (d.length + p) p (by omega) hp (by omega),
                  List.getD_append h d 0 _ (by omega)]
                congr 1
                omega
              · rw [if_pos (by omega), List.getD_append_right h d 0 _ (by omega)]
                congr 1
                omega
      · -- wrapping write
        rw [if_neg hnowrap]
        have hwrap : C - st.head < d.length := by omega
        by_cases hcase : st.written ≤ C
        · -- previous state linear; wrapping forces head = written < C
          obtain ⟨hhead, hpt⟩ := hsmall hcase
          have hwlt : st.written < C := by
            by_contra hcon
            have : st.head = 0 := by rw [hhead, if_neg (by omega)]
            omega
          have hhead' : st.head = st.written := by rw [hhead, if_pos hwlt]
          refine ⟨rfl, by simp [hw], ?_, ?_⟩
          · intro hle
            simp only [] at hle
            omega
          · intro hgt
            simp only [] at hgt ⊢
            have hh : (st.head + d.length) % C = st.head + d.length - C := by
              rw [mod_two_lt _ _ hC (by omega), if_neg (by omega)]
            rw [hh]
            refine ⟨by omega, ?_⟩
            intro i p hi hp hrel
            rcases hrel with hrel | hrel
            · by_cases hpo : p < st.head
              · -- untouched old byte below head
                rw [if_neg (by omega), if_neg (by omega), hpt p (by omega),
                  List.getD_append h d 0 _ (by omega)]
                congr 1
                omega
              · -- first copied region [head, C)
                rw [if_pos (by omega), List.getD_append_right h d 0 _ (by omega)]
                congr 1
                omega
            · -- second copied region [0, head')
              rw [if_neg (by omega), if_pos (by omega),
                List.getD_append_right h d 0 _ (by omega)]
              congr 1
              omega
        · -- previous state wrapped
          obtain ⟨hheadlt, hpt⟩ := hbig (by omega)
          refine ⟨rfl, by simp [hw], ?_, ?_⟩
          · intro hle
            simp only [] at hle
            omega
          · intro hgt
            simp only [] at hgt ⊢
            have hh : (st.head + d.length) % C = st.head + d.length - C := by
              rw [mod_two_lt _ _ hC (by omega), if_neg (by omega)]
            rw [hh]
            refine ⟨by omega, ?_⟩
            intro i p hi hp hrel
            rcases hrel with hrel | hrel
            · by_cases hpo : p < st.head
              · -- untouched old byte below head, old rotated offset d.length + i
                rw [if_neg (by omega), if_neg (by omega),
                  hpt (d.length + i) p (by omega) hp (by omega),
                  List.getD_append h d 0 _ (by omega)]
                congr 1
                omega
              · -- first copied region [head, C)
                rw [if_pos (by omega), List.getD_append_right h d 0 _ (by omega)]
                congr 1
                omega
            · -- second copied region [0, head')
              rw [if_neg (by omega), if_pos (by omega),
                List.getD_append_right h d 0 _ (by omega)]
              congr 1
              omega

theorem ringInv_read (C : Nat) (hC : 0 < C) (h : List Nat) (st : RingBuffer)
    (hinv : RingInv C h st) : st.read = lastBytes C h := by
  obtain ⟨hcap, hw, hsmall, hbig⟩ := hinv
  unfold RingBuffer.read lastBytes RingBuffer.size
  simp only [hcap]
  by_cases hz : st.written = 0
  · have h0 : h = [] := List.eq_nil_of_length_eq_zero (by omega)
    subst h0
    rw [if_pos (by omega)]
    simp
  · rw [if_neg (by omega)]
    by_cases hle : st.written ≤ C
    · rw [if_pos hle]
      obtain ⟨hhead, hpt⟩ := hsmall hle
      have hmin : min st.written C = st.written := by omega
      have hmin2 : min h.length C = h.length := by omega
      rw [hmin, hmin2, Nat.sub_self, List.drop_zero]
      apply List.ext_getElem
      · simp [hw]
      · intro i h1 h2
        simp only [List.getElem_map, List.getElem_range]
        rw [hpt i (by simpa using h1), List.getD_eq_getElem h 0 h2]
    · rw [if_neg hle]
      obtain ⟨hheadlt, hpt⟩ := hbig (by omega)
      rw [hw] at hpt
      have hmin2 : min h.length C = C := by omega
      rw [hmin2]
      apply List.ext_getElem
      · simp
        omega
      · intro j h1 h2
        simp only [List.getElem_map, List.getElem_range]
        rw [List.getElem_drop]
        have hjC : j < C := by simpa using h1
        by_cases hj : j < C - st.head
        · rw [if_pos hj,
            hpt j (st.head + j) hjC (by omega) (Or.inl rfl),
            List.getD_eq_getElem h 0 (by omega)]
        · rw [if_neg hj,
            hpt j (j - (C - st.head)) hjC (by omega) (Or.inr (by omega)),
            List.getD_eq_getElem h 0 (by omega)]

theorem ringInv_foldl (C : Nat) (hC : 0 < C) (chunks : List (List Nat)) :
    ∀ (st : RingBuffer) (h : List Nat),
      RingInv C h st → RingInv C (h ++ chunks.flatten) (chunks.foldl RingBuffer.write st) := by
  induction chunks with
  | nil =>
    intro st h hi
    simpa using hi
  | cons c cs ih =>
    intro st h hi
    have := ih (st.write c) (h ++ c) (ringInv_write C hC h st hi c)
    simpa [List.append_assoc] using this

/-- Claim C1: starting from a ring of capacity `C > 0`, after any sequence
of `write` calls whose inputs concatenate to `S = chunks.flatten` bytes,
`read()` returns exactly the last `min |S| C` bytes of the concatenation in
chronological order, independent of the chunking; moreover `size` and
`totalWritten` are exactly `min |S| C` and `|S|` (and since `read` is a
pure function of the state in this embedding — the source method never
assigns a field — reading mutates nothing). -/
theorem ring_read_returns_recent_history (C : Nat) (hC : 0 < C)
    (chunks : List (List Nat)) :
    (chunks.foldl RingBuffer.write (RingBuffer.new C)).read
        = lastBytes C chunks.flatten
    ∧ (chunks.foldl RingBuffer.write (RingBuffer.new C)).size
        = min chunks.flatten.length C
    ∧ (chunks.foldl RingBuffer.write (RingBuffer.new C)).totalWritten
        = chunks.flatten.length := by
  have hinv := ringInv_foldl C hC chunks (RingBuffer.new C) [] (ringInv_new C hC)
  rw [List.nil_append] at hinv
  refine ⟨ringInv_read C hC _ _ hinv, ?_, ?_⟩
  · obtain ⟨hcap2, hwr, -, -⟩ := hinv
    unfold RingBuffer.size
    rw [hwr, hcap2]
  · obtain ⟨-, hwr, -, -⟩ := hinv
    exact hwr

/-- Witness for C1 at a concrete input: capacity 3, writes [1,2] then
[3,4,5,6] (8 bytes total, chunked unevenly); `read` must return [4,5,6]. -/
theorem ring_read_returns_recent_history_witness :
    0 < 3
    ∧ ((([[1, 2], [3, 4, 5, 6]] : List (List Nat)).foldl RingBuffer.write
          (RingBuffer.new 3)).read
        = lastBytes 3 ([[1, 2], [3, 4, 5, 6]] : List (List Nat)).flatten
    ∧ (([[1, 2], [3, 4, 5, 6]] : List (List Nat)).foldl RingBuffer.write
          (RingBuffer.new 3)).size
        = min ([[1, 2], [3, 4, 5, 6]] : List (List Nat)).flatten.length 3
    ∧ (([[1, 2], [3, 4, 5, 6]] : List (List Nat)).foldl RingBuffer.write
          (RingBuffer.new 3)).totalWritten
        = ([[1, 2], [3, 4, 5, 6]] : List (List Nat)).flatten.length) :=
  ⟨by decide, ring_read_returns_recent_history 3 (by decide) [[1, 2], [3, 4, 5, 6]]⟩

/- ──────────────────────────────────────────────────────────────────
   Wire protocol framing (src/protocol.ts)
   ────────────────────────────────────────────────────────────────── -/

/-- Header size: 1 byte type + 4 bytes length. -/
def HEADER_SIZE : Nat := 5

/-- Max payload size: 10 MB; anything larger is considered malformed. -/
def MAX_PAYLOAD : Nat := 10 * 1024 * 1024

/-- Message type opcodes (`MSG` in protocol.ts). -/
def MSG.DATA_OUT : Nat := 0x01

def MSG.DATA_IN : Nat := 0x02

def MSG.RESIZE : Nat := 0x03

def MSG.EXIT : Nat := 0x04

def MSG.ERROR : Nat := 0x05

def MSG.HELLO : Nat := 0x06

def MSG.HELLO_ACK : Nat := 0x07

def MSG.REPLAY_END : Nat := 0x08

/-- A decoded frame: `{ type, payload }`. -/
structure Frame where
  type : Nat
  payload : List Nat
deriving DecidableEq

/-- The four big-endian bytes `Buffer.writeUInt32BE` stores for `n`. -/
def writeUInt32BE (n : Nat) : List Nat :=
  [n / 16777216 % 256, n / 65536 % 256, n / 256 % 256, n % 256]

/-- `Buffer.readUInt32BE` on four bytes. -/
def readUInt32BE (b1 b2 b3 b4 : Nat) : Nat :=
  b1 * 16777216 + b2 * 65536 + b3 * 256 + b4

/-- `encodeFrame(type, payload)`: `[type:1][length:4 BE][payload]`.  The
one-byte store `frame[0] = type` truncates to an unsigned byte, hence
`type % 256`. -/
def encodeFrame (type : Nat) (payload : List Nat) : List Nat :=
  type % 256 :: (writeUInt32BE payload.length ++ payload)

/-- The byte stream of a list of frames, in order. -/
def encodeFrames (fs : List Frame) : List Nat :=
  (fs.map fun f => encodeFrame f.type f.payload).flatten

/-- A frame the wire format can represent faithfully: the opcode fits one
byte and the payload does not exceed `MAX_PAYLOAD`. -/
def Frame.wf (f : Frame) : Prop :=
  f.type < 256 ∧ f.payload.length ≤ MAX_PAYLOAD

instance (f : Frame) : Decidable f.wf := by
  unfold Frame.wf
  infer_instance

/-- Error text for an oversized declared length (the source interpolates
the two sizes into the message; the model keeps it constant). -/
def payloadTooLargeMsg : String := "Payload too large"

/-- The `while` loop of `FrameDecoder.decode` over the internal buffer:
as long as a 5-byte header is present, read the declared length, fail on
an oversized length, stop if the payload is incomplete, otherwise emit the
frame and continue on the remainder.  Returns the emitted frames and the
retained remainder. -/
def decodeLoop : List Nat → Except String (List Frame × List Nat)
  | [] => .ok ([], [])
  | [t] => .ok ([], [t])
  | [t, b1] => .ok ([], [t, b1])
  | [t, b1, b2] => .ok ([], [t, b1, b2])
  | [t, b1, b2, b3] => .ok ([], [t, b1, b2, b3])
  | t :: b1 :: b2 :: b3 :: b4 :: rest =>
    if MAX_PAYLOAD < readUInt32BE b1 b2 b3 b4 then .error payloadTooLargeMsg
    else if rest.length < readUInt32BE b1 b2 b3 b4 then
      .ok ([], t :: b1 :: b2 :: b3 :: b4 :: rest)
    else
      match decodeLoop (rest.drop (readUInt32BE b1 b2 b3 b4)) with
      | .error e => .error e
      | .ok (fs, rem) => .ok (⟨t, rest.take (readUInt32BE b1 b2 b3 b4)⟩ :: fs, rem)
termination_by buf => buf.length
decreasing_by
  simp only [List.length_drop, List.length_cons]
  omega

/-- One `FrameDecoder.decode(chunk)` call on decoder state `st` (the
buffered remainder): concatenate, run the loop; on an oversized length the
source sets `this.buf = Buffer.alloc(0)` and throws, so the error case
leaves the decoder state empty and yields no frames. -/
def FrameDecoder.decode (st chunk : List Nat) :
    Except String (List Frame) × List Nat :=
  match decodeLoop (st ++ chunk) with
  | .error e => (.error e, [])
  | .ok (fs, rem) => (.ok fs, rem)

/-- Feeding a sequence of chunks to one decoder instance, collecting the
frames of each successful `decode` call (an exception aborts the feed,
as the holder destroys the connection on a decode error). -/
def feedAll (st : List Nat) : List (List Nat) → Except String (List Frame × List Nat)
  | [] => .ok ([], st)
  | c :: cs =>
    match decodeLoop (st ++ c) with
    | .error e => .error e
    | .ok (fs, rem) =>
      match feedAll rem cs with
      | .error e => .error e
      | .ok (fs2, fin) => .ok (fs ++ fs2, fin)

/-- A decoder remainder on which the loop stopped: either nothing is
pending, or the next pending frame is not yet complete in the buffer. -/
def StuckFor (fs : List Frame) (buf : List Nat) : Prop :=
  (fs = [] ∧ buf = []) ∨
  ∃ f fs2, fs = f :: fs2 ∧ buf.length < HEADER_SIZE + f.payload.length

theorem encodeFrame_length (t : Nat) (p : List Nat) :
    (encodeFrame t p).length = HEADER_SIZE + p.length := by
  simp [encodeFrame, writeUInt32BE, HEADER_SIZE]
  omega

theorem encodeFrames_cons (f : Frame) (fs : List Frame) :
    encodeFrames (f :: fs) = encodeFrame f.type f.payload ++ encodeFrames fs := by
  simp [encodeFrames]

theorem decodeLoop_short (buf : List Nat) (h : buf.length < HEADER_SIZE) :
    decodeLoop buf = .ok ([], buf) := by
  rcases buf with - | ⟨t, - | ⟨b1, - | ⟨b2, - | ⟨b3, - | ⟨b4, rest⟩⟩⟩⟩⟩
  · simp [decodeLoop]
  · simp [decodeLoop]
  · simp [decodeLoop]
  · simp [decodeLoop]
  · simp [decodeLoop]
  · simp only [HEADER_SIZE, List.length_cons] at h
    omega

theorem decodeLoop_on_encoded (n : Nat) :
    ∀ (buf : List Nat) (fs : List Frame) (r : List Nat),
      buf.length ≤ n → (∀ f ∈ fs, Frame.wf f) → buf ++ r = encodeFrames fs →
      ∃ fs1 fs2 rem, fs = fs1 ++ fs2 ∧ decodeLoop buf = Except.ok (fs1, rem) ∧
        rem ++ r = encodeFrames fs2 ∧ StuckFor fs2 rem := by
  induction n with
  | zero =>
    intro buf fs r hlen hwf hbr
    have hb : buf = [] := List.eq_nil_of_length_eq_zero (by omega)
    subst hb
    refine ⟨[], fs, [], rfl, decodeLoop_short [] (by simp [HEADER_SIZE]), hbr, ?_⟩
    cases fs with
    | nil => exact Or.inl ⟨rfl, rfl⟩
    | cons f fs2 => exact Or.inr ⟨f, fs2, rfl, by simp [HEADER_SIZE]⟩
  | succ n ih =>
    intro buf fs r hlen hwf hbr
    by_cases hshort : buf.length < HEADER_SIZE
    · refine ⟨[], fs, buf, rfl, decodeLoop_short buf hshort, hbr, ?_⟩
      cases fs with
      | nil =>
        simp only [encodeFrames, List.map_nil, List.flatten_nil] at hbr
        have := List.append_eq_nil.mp hbr
        exact Or.inl ⟨rfl, this.1⟩
      | cons f fs2 =>
        exact Or.inr ⟨f, fs2, rfl, by unfold HEADER_SIZE at hshort ⊢; omega⟩
    · rcases buf with - | ⟨t, - | ⟨b1, - | ⟨b2, - | ⟨b3, - | ⟨b4, rest⟩⟩⟩⟩⟩
      · simp [HEADER_SIZE] at hshort
      · simp [HEADER_SIZE] at hshort
      · simp [HEADER_SIZE] at hshort
      · simp [HEADER_SIZE] at hshort
      · simp [HEADER_SIZE] at hshort
      · cases fs with
        | nil =>
          simp only [encodeFrames, List.map_nil, List.flatten_nil] at hbr
          simp at hbr
        | cons f fs' =>
          rw [encodeFrames_cons] at hbr
          simp only [encodeFrame, writeUInt32BE, List.cons_append, List.append_assoc,
            List.nil_append, List.cons.injEq] at hbr
          obtain ⟨ht, hb1, hb2, hb3, hb4, htail⟩ := hbr
          have hwff : f.wf := hwf f (by simp)
          obtain ⟨htype, hplen⟩ := hwff
          have hplen32 : f.payload.length < 4294967296 := by
            unfold MAX_PAYLOAD at hplen
            omega
          have hread : readUInt32BE b1 b2 b3 b4 = f.payload.length := by
            rw [hb1, hb2, hb3, hb4]
            unfold readUInt32BE
            omega
          have hnotbig : ¬(MAX_PAYLOAD < readUInt32BE b1 b2 b3 b4) := by
            rw [hread]
            omega
          by_cases hinc : rest.length < f.payload.length
          · have hstep : decodeLoop (t :: b1 :: b2 :: b3 :: b4 :: rest)
                = Except.ok ([], t :: b1 :: b2 :: b3 :: b4 :: rest) := by
              simp only [decodeLoop]
              rw [if_neg hnotbig, if_pos (by rw [hread]; exact hinc)]
            refine ⟨[], f :: fs', t :: b1 :: b2 :: b3 :: b4 :: rest, rfl, hstep, ?_, ?_⟩
            · rw [encodeFrames_cons]
              simp only [encodeFrame, writeUInt32BE, List.cons_append, List.append_assoc,
                List.nil_append, List.cons.injEq]
              exact ⟨ht, hb1, hb2, hb3, hb4, htail⟩
            · refine Or.inr ⟨f, fs', rfl, ?_⟩
              simp only [HEADER_SIZE, List.length_cons]
              omega
          · -- a complete frame is present
            have hrestlen : f.payload.length ≤ rest.length := by omega
            have htake : rest.take f.payload.length = f.payload := by
              have h1 : (rest ++ r).take f.payload.length = rest.take f.payload.length :=
                List.take_append_of_le_length hrestlen
              rw [htail] at h1
              rw [List.take_left f.payload (encodeFrames fs')] at h1
              exact h1.symm
            have hdrop : rest.drop f.payload.length ++ r = encodeFrames fs' := by
              have h1 : (rest ++ r).drop f.payload.length
                  = rest.drop f.payload.length ++ r :=
                List.drop_append_of_le_length hrestlen
              rw [htail] at h1
              rw [List.drop_left f.payload (encodeFrames fs')] at h1
              exact h1.symm
            have hlen' : (rest.drop f.payload.length).length ≤ n := by
              simp only [List.length_cons] at hlen
              simp only [List.length_drop]
              omega
            have hwf' : ∀ g ∈ fs', Frame.wf g := fun g hg => hwf g (by simp [hg])
            obtain ⟨fs1, fs2, rem, hsplit, hdl, hrem, hstuck⟩ :=
              ih (rest.drop f.payload.length) fs' r hlen' hwf' hdrop
            have hstep : decodeLoop (t :: b1 :: b2 :: b3 :: b4 :: rest)
                = Except.ok (⟨t, rest.take f.payload.length⟩ :: fs1, rem) := by
              simp only [decodeLoop]
              rw [if_neg hnotbig, if_neg (by rw [hread]; exact hinc), hread, hdl]
            have hfeq : (⟨t, rest.take f.payload.length⟩ : Frame) = f := by
              rw [htake, ht, Nat.mod_eq_of_lt htype]
            rw [hfeq] at hstep
            exact ⟨f :: fs1, fs2, rem, by simp [hsplit], hstep, hrem, hstuck⟩

theorem stuckFor_encodeFrames (fs : List Frame) (rem : List Nat)
    (hs : StuckFor fs rem) (he : rem = encodeFrames fs) : fs = [] ∧ rem = [] := by
  rcases hs with ⟨hfs, hrem⟩ | ⟨f, fs2, hfs, hlen⟩
  · exact ⟨hfs, hrem⟩
  · exfalso
    subst hfs
    rw [encodeFrames_cons] at he
    have : rem.length = (encodeFrame f.type f.payload ++ encodeFrames fs2).length := by
      rw [he]
    rw [List.length_append, encodeFrame_length] at this
    omega

theorem feedAll_on_encoded (chunks : List (List Nat)) :
    ∀ (st : List Nat) (fs : List Frame),
      (∀ f ∈ fs, Frame.wf f) → st ++ chunks.flatten = encodeFrames fs →
      StuckFor fs st →
      ∃ fs1 fs2 rem, feedAll st chunks = Except.ok (fs1, rem) ∧ fs = fs1 ++ fs2 ∧
        rem ++ [] = encodeFrames fs2 ∧ StuckFor fs2 rem := by
  induction chunks with
  | nil =>
    intro st fs hwf hbr hstuck
    refine ⟨[], fs, st, by simp [feedAll], rfl, ?_, hstuck⟩
    simpa using hbr
  | cons c cs ih =>
    intro st fs hwf hbr hstuck
    have hbr' : (st ++ c) ++ cs.flatten = encodeFrames fs := by
      simpa [List.append_assoc] using hbr
    obtain ⟨fs1a, fs2a, rema, hsplita, hdl, hrema, hstucka⟩ :=
      decodeLoop_on_encoded (st ++ c).length (st ++ c) fs cs.flatten le_rfl hwf hbr'
    have hwfa : ∀ g ∈ fs2a, Frame.wf g := by
      intro g hg
      exact hwf g (by simp [hsplita, hg])
    obtain ⟨fs1b, fs2, rem, hfeed, hsplitb, hrem, hstuckb⟩ :=
      ih rema fs2a hwfa hrema hstucka
    refine ⟨fs1a ++ fs1b, fs2, rem, ?_, ?_, hrem, hstuckb⟩
    · simp only [feedAll]
      rw [hdl]
      simp only []
      rw [hfeed]
    · rw [hsplita, hsplitb, List.append_assoc]

/-- Claim C2: for every sequence of frames whose opcodes fit one byte and
whose payloads are each at most `MAX_PAYLOAD`, feeding the concatenation of
their encodings to a fresh `FrameDecoder` in an arbitrary partition into
chunks (single bytes, header-spanning chunks, anything) yields exactly the
original frames in order — types and payloads (including NUL bytes)
preserved verbatim — with an empty remainder left in the decoder. -/
theorem frame_stream_roundtrip (fs : List Frame) (hwf : ∀ f ∈ fs, Frame.wf f)
    (chunks : List (List Nat)) (hchunks : chunks.flatten = encodeFrames fs) :
    feedAll [] chunks = Except.ok (fs, []) := by
  have hstuck0 : StuckFor fs [] := by
    cases fs with
    | nil => exact Or.inl ⟨rfl, rfl⟩
    | cons f fs2 => exact Or.inr ⟨f, fs2, rfl, by simp [HEADER_SIZE]⟩
  obtain ⟨fs1, fs2, rem, hfeed, hsplit, hrem, hstuck⟩ :=
    feedAll_on_encoded chunks [] fs hwf (by simpa using hchunks) hstuck0
  rw [List.append_nil] at hrem
  obtain ⟨hfs2, hremnil⟩ := stuckFor_encodeFrames fs2 rem hstuck hrem
  subst hfs2
  rw [List.append_nil] at hsplit
  rw [hfeed, hsplit, hremnil]

/-- Witness for C2: two frames (`DATA_OUT` with payload `[0, 65]`
containing a NUL, and an empty `REPLAY_END`) delivered one byte at a
time. -/
theorem frame_stream_roundtrip_witness :
    (∀ f ∈ ([⟨MSG.DATA_OUT, [0, 65]⟩, ⟨MSG.REPLAY_END, []⟩] : List Frame), Frame.wf f)
    ∧ ([[1], [0], [0], [0], [2], [0], [65], [8], [0], [0], [0], [0]] :
        List (List Nat)).flatten
      = encodeFrames [⟨MSG.DATA_OUT, [0, 65]⟩, ⟨MSG.REPLAY_END, []⟩]
    ∧ feedAll [] [[1], [0], [0], [0], [2], [0], [65], [8], [0], [0], [0], [0]]
      = Except.ok ([⟨MSG.DATA_OUT, [0, 65]⟩, ⟨MSG.REPLAY_END, []⟩], []) :=
  ⟨by decide, by decide,
    frame_stream_roundtrip [⟨MSG.DATA_OUT, [0, 65]⟩, ⟨MSG.REPLAY_END, []⟩]
      (by decide)
      [[1], [0], [0], [0], [2], [0], [65], [8], [0], [0], [0], [0]]
      (by decide)⟩

/-- Counterexample to claim C4 as stated: after a header declaring
`MAX_PAYLOAD + 1 = 10485761` bytes (bytes `[1, 0, 160, 0, 1]`) makes
`decode` throw, a subsequent `decode` call on the same decoder instance
(whose state was reset to empty by the failing call) happily produces a
frame again — the failure is not permanent at the decoder level. -/
theorem frameDecoder_failure_not_permanent :
    (FrameDecoder.decode [] [1, 0, 160, 0, 1]).1 = Except.error payloadTooLargeMsg
    ∧ (FrameDecoder.decode (FrameDecoder.decode [] [1, 0, 160, 0, 1]).2
        (encodeFrame MSG.REPLAY_END [])).1
      = Except.ok [⟨MSG.REPLAY_END, []⟩] := by
  constructor
  · simp [FrameDecoder.decode, decodeLoop, readUInt32BE, MAX_PAYLOAD]
  · simp [FrameDecoder.decode, decodeLoop, readUInt32BE, MAX_PAYLOAD,
      encodeFrame, writeUInt32BE, MSG.REPLAY_END]

/-- Claim C4 (amended): when the buffered bytes of a `decode` call start
with a header whose declared payload length exceeds `MAX_PAYLOAD`, that
call throws `Payload too large`, produces no frames, and resets the
decoder buffer to empty — so the next call behaves like a fresh decoder;
permanence of the failure is provided by the holder, which destroys the
connection when `decode` throws, not by the decoder instance itself. -/
theorem frameDecoder_oversize_length_fails (st chunk : List Nat)
    (t b1 b2 b3 b4 : Nat) (rest : List Nat)
    (hshape : st ++ chunk = t :: b1 :: b2 :: b3 :: b4 :: rest)
    (hbig : MAX_PAYLOAD < readUInt32BE b1 b2 b3 b4) :
    FrameDecoder.decode st chunk = (Except.error payloadTooLargeMsg, []) := by
  have hdl : decodeLoop (st ++ chunk) = Except.error payloadTooLargeMsg := by
    rw [hshape]
    simp only [decodeLoop]
    rw [if_pos hbig]
  unfold FrameDecoder.decode
  rw [hdl]

/-- Witness for the amended C4 at a concrete input: state `[1, 0]` plus
chunk `[160, 0, 1, 9, 9]` assemble a header declaring 10485761 bytes. -/
theorem frameDecoder_oversize_length_fails_witness :
    ([1, 0] ++ [160, 0, 1, 9, 9] : List Nat) = 1 :: 0 :: 160 :: 0 :: 1 :: [9, 9]
    ∧ MAX_PAYLOAD < readUInt32BE 0 160 0 1
    ∧ FrameDecoder.decode [1, 0] [160, 0, 1, 9, 9]
        = (Except.error payloadTooLargeMsg, []) :=
  ⟨by decide, by decide,
    frameDecoder_oversize_length_fails [1, 0] [160, 0, 1, 9, 9] 1 0 160 0 1 [9, 9]
      (by decide) (by decide)⟩

/- ──────────────────────────────────────────────────────────────────
   Session registry (src/session.ts) and the linger configuration
   (holder.ts).  Strings are modelled as `List Char` where character
   arithmetic matters, `String` otherwise; filesystem and process
   queries are oracle functions passed as parameters.
   ────────────────────────────────────────────────────────────────── -/

/-- The character class `[a-zA-Z0-9_-]` used by both the generator's
filter and `validateName`. -/
def isNameChar (c : Char) : Bool :=
  decide ((65 ≤ c.toNat ∧ c.toNat ≤ 90) ∨ (97 ≤ c.toNat ∧ c.toNat ≤ 122) ∨
    (48 ≤ c.toNat ∧ c.toNat ≤ 57) ∨ c.toNat = 95 ∨ c.toNat = 45)

/-- Path separators recognised by `path.basename` (slash, and backslash
on Windows). -/
def isSepChar (c : Char) : Bool :=
  decide (c.toNat = 47 ∨ c.toNat = 92)

/-- `path.basename` (Node stdlib): the segment after the last separator. -/
def basename (s : List Char) : List Char :=
  (s.reverse.takeWhile fun c => !isSepChar c).reverse

def extExe : List Char := ['.', 'e', 'x', 'e']

def extCmd : List Char := ['.', 'c', 'm', 'd']

def extBat : List Char := ['.', 'b', 'a', 't']

def extSh : List Char := ['.', 's', 'h']

def extPs1 : List Char := ['.', 'p', 's', '1']

def lowerList (s : List Char) : List Char := s.map Char.toLower

/-- `.replace(/\.(exe|cmd|bat|sh|ps1)$/i, "")`: strip one trailing
executable-script extension, case-insensitively (the five alternatives
end in distinct letters, so at most one matches). -/
def stripScriptExt (s : List Char) : List Char :=
  if extExe.isSuffixOf (lowerList s) then s.take (s.length - 4)
  else if extCmd.isSuffixOf (lowerList s) then s.take (s.length - 4)
  else if extBat.isSuffixOf (lowerList s) then s.take (s.length - 4)
  else if extSh.isSuffixOf (lowerList s) then s.take (s.length - 3)
  else if extPs1.isSuffixOf (lowerList s) then s.take (s.length - 4)
  else s

/-- The literal `"session"`. -/
def sessionWord : List Char := ['s', 'e', 's', 's', 'i', 'o', 'n']

/-- The `base` computed by `generateName`: basename of the first token,
extension stripped, characters outside the class dropped, then
`.slice(0, 16)`. -/
def nameBase (first : List Char) : List Char :=
  ((stripScriptExt (basename first)).filter isNameChar).take 16

/-- `generateName(command)`: `base || "session"` followed by `-` and the
random hex suffix `Math.random().toString(16).slice(2, 6)` (modelled as a
parameter: up to four lowercase hex digits). -/
def generateName (command : List (List Char)) (hex : List Char) : List Char :=
  (if (nameBase (command.headD sessionWord)).isEmpty then sessionWord
   else nameBase (command.headD sessionWord)) ++ ['-'] ++ hex

/-- `validateName(name)` succeeds (does not throw) iff the name matches
`^[a-zA-Z0-9_-]+$` and is at most 64 characters. -/
def validateName (s : List Char) : Bool :=
  !s.isEmpty && s.all isNameChar && decide (s.length ≤ 64)

/-- Characters producible by `Math.random().toString(16).slice(2, 6)`:
lowercase hex digits. -/
def isLowerHexDigit (c : Char) : Bool :=
  decide ((48 ≤ c.toNat ∧ c.toNat ≤ 57) ∨ (97 ≤ c.toNat ∧ c.toNat ≤ 102))

theorem hexChar_isNameChar (c : Char) (h : isLowerHexDigit c = true) :
    isNameChar c = true := by
  simp only [isLowerHexDigit, decide_eq_true_eq] at h
  simp only [isNameChar, decide_eq_true_eq]
  omega

theorem nameBase_chars (first : List Char) :
    ∀ c ∈ nameBase first, isNameChar c = true := by
  intro c hc
  have hmem := List.take_subset 16 _ hc
  exact (List.mem_filter.mp hmem).2

theorem nameBase_short (first : List Char) : (nameBase first).length ≤ 16 := by
  simp only [nameBase, List.length_take]
  omega

/-- Claim C10: for every command vector and every outcome of the random
hex suffix (at most four lowercase hex digits), the generated name passes
`validateName`: non-empty, only `[A-Za-z0-9_-]` characters — and it is in
fact at most 21 characters long. -/
theorem generateName_passes_validateName (command : List (List Char))
    (hex : List Char) (hlen : hex.length ≤ 4)
    (hhex : ∀ c ∈ hex, isLowerHexDigit c = true) :
    validateName (generateName command hex) = true
    ∧ (generateName command hex).length ≤ 21 := by
  unfold generateName validateName
  have hbase :
      (∀ c ∈ (if (nameBase (command.headD sessionWord)).isEmpty then sessionWord
          else nameBase (command.headD sessionWord)), isNameChar c = true)
      ∧ (if (nameBase (command.headD sessionWord)).isEmpty then sessionWord
          else nameBase (command.headD sessionWord)).length ≤ 16 := by
    split
    · exact ⟨by decide, by decide⟩
    · exact ⟨nameBase_chars _, nameBase_short _⟩
  obtain ⟨hchars, hblen⟩ := hbase
  constructor
  · rw [Bool.and_eq_true, Bool.and_eq_true]
    refine ⟨⟨?_, ?_⟩, ?_⟩
    · simp
    · rw [List.all_append, List.all_append, Bool.and_eq_true, Bool.and_eq_true]
      refine ⟨⟨?_, by decide⟩, ?_⟩
      · rw [List.all_eq_true]
        exact hchars
      · rw [List.all_eq_true]
        intro c hc
        exact hexChar_isNameChar c (hhex c hc)
    · simp only [decide_eq_true_eq, List.length_append, List.length_singleton]
      omega
  · simp only [List.length_append, List.length_singleton]
    omega

/-- Witness for C10: command `["node"]`, hex outcome `ab12`. -/
theorem generateName_passes_validateName_witness :
    (['a', 'b', '1', '2'] : List Char).length ≤ 4
    ∧ (∀ c ∈ (['a', 'b', '1', '2'] : List Char), isLowerHexDigit c = true)
    ∧ (validateName (generateName [['n', 'o', 'd', 'e']] ['a', 'b', '1', '2']) = true
      ∧ (generateName [['n', 'o', 'd', 'e']] ['a', 'b', '1', '2']).length ≤ 21) :=
  ⟨by decide, by decide,
    generateName_passes_validateName [['n', 'o', 'd', 'e']] ['a', 'b', '1', '2']
      (by decide) (by decide)⟩

/-- `SessionMetadata` (session.ts). -/
structure SessionMetadata where
  name : String
  pid : Nat
  childPid : Nat
  command : List String
  cols : Nat
  rows : Nat
  startedAt : String
deriving DecidableEq

/-- `SessionInfo` (session.ts); the session name is kept as a character
list (Lean whnf on opaque `String` primitives is impractical). -/
structure SessionInfo where
  name : List Char
  metadata : SessionMetadata
  socketExists : Bool
deriving DecidableEq

/-- The literal `".json"`. -/
def jsonExtChars : List Char := ['.', 'j', 's', 'o', 'n']

/-- `file.replace(/\.json$/, "")` on a file known to end in `.json`:
drop the last five characters. -/
def dropJsonExt (f : List Char) : List Char := f.take (f.length - 5)

/-- The body of the `for` loop of `listSessions`, acting on the
accumulated `results` plus the list of names removed by stale cleanup.
The filesystem and process probes are oracles: `readMeta` is
`readMetadata` (returns `none` when the file is missing or fails to parse
as JSON), `sockExistsF` is `existsSync` on the socket path, `aliveF` is
`isProcessAlive`, `reachableF` is the awaited `isSocketReachable` probe
(its 100 ms timeout folded into the oracle answer). -/
def listSessionsStep (cleanOpt : Option Bool)
    (readMeta : List Char → Option SessionMetadata) (sockExistsF : List Char → Bool)
    (aliveF : Nat → Bool) (reachableF : List Char → Bool) (isWin : Bool)
    (acc : List SessionInfo × List (List Char)) (file : List Char) :
    List SessionInfo × List (List Char) :=
  match readMeta (dropJsonExt file) with
  | none => acc
  | some meta =>
    if aliveF meta.pid = false ∧ cleanOpt ≠ some false
        ∧ reachableF (dropJsonExt file) = false then
      (acc.1, acc.2 ++ [dropJsonExt file])
    else
      (acc.1 ++ [⟨dropJsonExt file, meta,
          if isWin then aliveF meta.pid else sockExistsF (dropJsonExt file)⟩],
        acc.2)

/-- `listSessions(opts)`: filter the directory entries to `*.json`, then
run the loop.  Returns the results together with the names removed by
stale cleanup (the `removeSession` calls). -/
def listSessions (cleanOpt : Option Bool) (entries : List (List Char))
    (readMeta : List Char → Option SessionMetadata) (sockExistsF : List Char → Bool)
    (aliveF : Nat → Bool) (reachableF : List Char → Bool) (isWin : Bool) :
    List SessionInfo × List (List Char) :=
  (entries.filter fun f => jsonExtChars.isSuffixOf f).foldl
    (listSessionsStep cleanOpt readMeta sockExistsF aliveF reachableF isWin) ([], [])

theorem listSessionsStep_fold_removed (cleanOpt : Option Bool)
    (readMeta : List Char → Option SessionMetadata) (sockExistsF : List Char → Bool)
    (aliveF : Nat → Bool) (reachableF : List Char → Bool) (isWin : Bool)
    (files : List (List Char)) :
    ∀ acc : List SessionInfo × List (List Char),
      ∀ n ∈ (files.foldl
          (listSessionsStep cleanOpt readMeta sockExistsF aliveF reachableF isWin)
          acc).2,
        n ∈ acc.2 ∨ ∃ m, readMeta n = some m ∧ aliveF m.pid = false
          ∧ cleanOpt ≠ some false ∧ reachableF n = false := by
  induction files with
  | nil =>
    intro acc n hn
    exact Or.inl hn
  | cons f fs ih =>
    intro acc n hn
    have := ih (listSessionsStep cleanOpt readMeta sockExistsF aliveF reachableF isWin acc f)
      n (by simpa using hn)
    rcases this with hin | hq
    · unfold listSessionsStep at hin
      rcases hmeta : readMeta (dropJsonExt f) with - | meta
      · simp only [hmeta] at hin
        exact Or.inl hin
      · simp only [hmeta] at hin
        split at hin
        · simp only [List.mem_append, List.mem_singleton] at hin
          rcases hin with hin | hin
          · exact Or.inl hin
          · subst hin
            rename_i hcond
            exact Or.inr ⟨meta, hmeta, hcond.1, hcond.2.1, hcond.2.2⟩
        · exact Or.inl hin
    · exact Or.inr hq

theorem listSessionsStep_fold_results (cleanOpt : Option Bool)
    (readMeta : List Char → Option SessionMetadata) (sockExistsF : List Char → Bool)
    (aliveF : Nat → Bool) (reachableF : List Char → Bool) (isWin : Bool)
    (files : List (List Char)) :
    ∀ acc : List SessionInfo × List (List Char),
      ∀ info ∈ (files.foldl
          (listSessionsStep cleanOpt readMeta sockExistsF aliveF reachableF isWin)
          acc).1,
        info ∈ acc.1 ∨ readMeta info.name = some info.metadata := by
  induction files with
  | nil =>
    intro acc info hn
    exact Or.inl hn
  | cons f fs ih =>
    intro acc info hn
    have := ih (listSessionsStep cleanOpt readMeta sockExistsF aliveF reachableF isWin acc f)
      info (by simpa using hn)
    rcases this with hin | hq
    · unfold listSessionsStep at hin
      rcases hmeta : readMeta (dropJsonExt f) with - | meta
      · simp only [hmeta] at hin
        exact Or.inl hin
      · simp only [hmeta] at hin
        split at hin
        · exact Or.inl hin
        · simp only [List.mem_append, List.mem_singleton] at hin
          rcases hin with hin | hin
          · exact Or.inl hin
          · subst hin
            exact Or.inr hmeta
    · exact Or.inr hq

theorem listSessionsStep_fold_mono (cleanOpt : Option Bool)
    (readMeta : List Char → Option SessionMetadata) (sockExistsF : List Char → Bool)
    (aliveF : Nat → Bool) (reachableF : List Char → Bool) (isWin : Bool)
    (files : List (List Char)) :
    ∀ acc : List SessionInfo × List (List Char), ∀ info ∈ acc.1,
      info ∈ (files.foldl
        (listSessionsStep cleanOpt readMeta sockExistsF aliveF reachableF isWin)
        acc).1 := by
  induction files with
  | nil =>
    intro acc info hn
    exact hn
  | cons f fs ih =>
    intro acc info hn
    refine ih _ info ?_
    unfold listSessionsStep
    rcases hmeta : readMeta (dropJsonExt f) with - | meta
    · simp only [hmeta]
      exact hn
    · simp only [hmeta]
      split
      · exact hn
      · simp only [List.mem_append]
        exact Or.inl hn

theorem listSessionsStep_fold_live (cleanOpt : Option Bool)
    (readMeta : List Char → Option SessionMetadata) (sockExistsF : List Char → Bool)
    (aliveF : Nat → Bool) (reachableF : List Char → Bool) (isWin : Bool)
    (files : List (List Char)) :
    ∀ acc : List SessionInfo × List (List Char), ∀ f ∈ files, ∀ m,
      readMeta (dropJsonExt f) = some m → aliveF m.pid = true →
      (⟨dropJsonExt f, m,
          if isWin then aliveF m.pid else sockExistsF (dropJsonExt f)⟩ : SessionInfo)
        ∈ (files.foldl
            (listSessionsStep cleanOpt readMeta sockExistsF aliveF reachableF isWin)
            acc).1 := by
  induction files with
  | nil =>
    intro acc f hf
    simp at hf
  | cons g gs ih =>
    intro acc f hf m hmeta halive
    simp only [List.mem_cons] at hf
    rcases hf with hf | hf
    · subst hf
      simp only [List.foldl_cons]
      apply listSessionsStep_fold_mono
      unfold listSessionsStep
      simp only [hmeta]
      have hcond : ¬(aliveF m.pid = false ∧ cleanOpt ≠ some false
          ∧ reachableF (dropJsonExt f) = false) := by simp [halive]
      rw [if_neg hcond]
      simp only [List.mem_append, List.mem_singleton]
      exact Or.inr trivial
    · simp only [List.foldl_cons]
      exact ih _ f hf m hmeta halive

/-- Claim C8: during enumeration, (a) a name is removed by stale cleanup
only when its metadata parses, its holder PID is not alive, cleanup is
enabled, and the endpoint probe is unreachable; (b) an entry whose
metadata file is missing or fails to parse is skipped — it is neither
removed nor returned; (c) every returned entry carries metadata that
parsed; (d) every `*.json` entry whose metadata parses and whose holder
PID is alive is returned. -/
theorem listSessions_stale_cleanup (cleanOpt : Option Bool) (entries : List (List Char))
    (readMeta : List Char → Option SessionMetadata) (sockExistsF : List Char → Bool)
    (aliveF : Nat → Bool) (reachableF : List Char → Bool) (isWin : Bool) :
    (∀ n ∈ (listSessions cleanOpt entries readMeta sockExistsF aliveF reachableF isWin).2,
      ∃ m, readMeta n = some m ∧ aliveF m.pid = false
        ∧ cleanOpt ≠ some false ∧ reachableF n = false)
    ∧ (∀ n, readMeta n = none →
        n ∉ (listSessions cleanOpt entries readMeta sockExistsF aliveF reachableF isWin).2
        ∧ ∀ info ∈ (listSessions cleanOpt entries readMeta sockExistsF aliveF
            reachableF isWin).1, info.name ≠ n)
    ∧ (∀ info ∈ (listSessions cleanOpt entries readMeta sockExistsF aliveF
          reachableF isWin).1, readMeta info.name = some info.metadata)
    ∧ (∀ f ∈ entries, jsonExtChars.isSuffixOf f = true → ∀ m,
        readMeta (dropJsonExt f) = some m → aliveF m.pid = true →
        (⟨dropJsonExt f, m,
            if isWin then aliveF m.pid else sockExistsF (dropJsonExt f)⟩ : SessionInfo)
          ∈ (listSessions cleanOpt entries readMeta sockExistsF aliveF
              reachableF isWin).1) := by
  have hrem := listSessionsStep_fold_removed cleanOpt readMeta sockExistsF aliveF
    reachableF isWin (entries.filter fun f => jsonExtChars.isSuffixOf f) ([], [])
  have hres := listSessionsStep_fold_results cleanOpt readMeta sockExistsF aliveF
    reachableF isWin (entries.filter fun f => jsonExtChars.isSuffixOf f) ([], [])
  refine ⟨?_, ?_, ?_, ?_⟩
  · intro n hn
    rcases hrem n hn with hin | hq
    · simp at hin
    · exact hq
  · intro n hnone
    constructor
    · intro hn
      rcases hrem n hn with hin | ⟨m, hm, -⟩
      · simp at hin
      · rw [hnone] at hm
        exact Option.noConfusion hm
    · intro info hinfo hname
      rcases hres info hinfo with hin | hq
      · simp at hin
      · rw [hname, hnone] at hq
        exact Option.noConfusion hq
  · intro info hinfo
    rcases hres info hinfo with hin | hq
    · simp at hin
    · exact hq
  · intro f hf hext m hmeta halive
    exact listSessionsStep_fold_live cleanOpt readMeta sockExistsF aliveF reachableF
      isWin (entries.filter fun f => jsonExtChars.isSuffixOf f) ([], [])
      f (List.mem_filter.mpr ⟨hf, hext⟩) m hmeta halive

/-- A concrete metadata record for witnesses. -/
def sampleMeta : SessionMetadata :=
  { name := "a", pid := 7, childPid := 8, command := [], cols := 120, rows := 40,
    startedAt := "2024-01-01T00:00:00Z" }

/-- Witness for C8: one `a.json` entry whose metadata parses and whose
holder PID (7) is alive; enumeration returns it. -/
theorem listSessions_stale_cleanup_witness :
    (['a', '.', 'j', 's', 'o', 'n'] : List Char) ∈ [['a', '.', 'j', 's', 'o', 'n']]
    ∧ jsonExtChars.isSuffixOf ['a', '.', 'j', 's', 'o', 'n'] = true
    ∧ (fun n => if n = ['a'] then some sampleMeta else none)
        (dropJsonExt ['a', '.', 'j', 's', 'o', 'n']) = some sampleMeta
    ∧ (fun p => decide (p = 7)) sampleMeta.pid = true
    ∧ (⟨dropJsonExt ['a', '.', 'j', 's', 'o', 'n'], sampleMeta,
          if false then (fun p => decide (p = 7)) sampleMeta.pid
          else (fun _ => true) (dropJsonExt ['a', '.', 'j', 's', 'o', 'n'])⟩ : SessionInfo)
        ∈ (listSessions (some true) [['a', '.', 'j', 's', 'o', 'n']]
            (fun n => if n = ['a'] then some sampleMeta else none) (fun _ => true)
            (fun p => decide (p = 7)) (fun _ => false) false).1 :=
  ⟨by decide, by decide, by decide, by decide,
    (listSessions_stale_cleanup (some true) [['a', '.', 'j', 's', 'o', 'n']]
        (fun n => if n = ['a'] then some sampleMeta else none) (fun _ => true)
        (fun p => decide (p = 7)) (fun _ => false) false).2.2.2
      ['a', '.', 'j', 's', 'o', 'n'] (by decide) (by decide) sampleMeta (by decide)
      (by decide)⟩

/- ──────────────────────────────────────────────────────────────────
   Shutdown linger configuration (holder.ts):
   `parseInt(process.env["HOLDPTY_LINGER_MS"] ?? "5000", 10) || 5000`
   ────────────────────────────────────────────────────────────────── -/

/-- Value of a maximal run of leading decimal digits; `none` when there
is no leading digit (`parseInt` → `NaN`). -/
def leadingDigits (cs : List Char) : Option Nat :=
  if (cs.takeWhile Char.isDigit).isEmpty then none
  else some ((cs.takeWhile Char.isDigit).foldl (fun a c => a * 10 + (c.toNat - 48)) 0)

/-- `parseInt(s, 10)` (JS): trim whitespace, optional sign, then the
longest prefix of decimal digits; `none` models `NaN`. -/
def parseInt10 (s : List Char) : Option Int :=
  match (s.dropWhile Char.isWhitespace).reverse.dropWhile Char.isWhitespace |>.reverse with
  | [] => none
  | c :: rest =>
    if c = '-' then (leadingDigits rest).map fun n => -(n : Int)
    else if c = '+' then (leadingDigits rest).map fun n => (n : Int)
    else (leadingDigits (c :: rest)).map fun n => (n : Int)

/-- The default string `"5000"`. -/
def defaultLingerChars : List Char := ['5', '0', '0', '0']

/-- `lingerMs` as computed by `Holder.shutdown`:
`parseInt(env ?? "5000", 10) || 5000`.  JavaScript `||` replaces the
falsy numbers `NaN`, `0` and `-0` by the default. -/
def lingerMs (env : Option (List Char)) : Int :=
  match parseInt10 (env.getD defaultLingerChars) with
  | none => 5000
  | some n => if n = 0 then 5000 else n

/-- Counterexample to claim C5 as stated: setting `HOLDPTY_LINGER_MS=0`
yields the 5000 ms default (not a positive test-friendly minimum distinct
from the default), and `HOLDPTY_LINGER_MS=-100` yields −100, which is not
clamped to anything strictly positive by the holder. -/
theorem linger_zero_gives_default :
    lingerMs (some ['0']) = 5000
    ∧ lingerMs (some ['-', '1', '0', '0']) = -100
    ∧ lingerMs (some ['-', '1', '0', '0']) < 0 := by
  refine ⟨by decide, by decide, by decide⟩

/-- Claim C5 (amended): the linger is read from `HOLDPTY_LINGER_MS`; an
unset, unparsable, or zero value yields the 5000 ms default (zero is not
clamped to a small positive minimum — it falls back to the default), and
any other parsed value, including negative ones, is used as-is (no
clamping in the holder; the platform timer's own minimum is outside this
code). -/
theorem linger_from_env (s : List Char) (n : Int) (hp : parseInt10 s = some n)
    (hn : n ≠ 0) :
    lingerMs (some s) = n ∧ lingerMs none = 5000 ∧ lingerMs (some ['0']) = 5000 := by
  refine ⟨?_, by decide, by decide⟩
  unfold lingerMs
  simp only [Option.getD_some, hp]
  rw [if_neg hn]

/-- Witness for the amended C5: `HOLDPTY_LINGER_MS=200`. -/
theorem linger_from_env_witness :
    parseInt10 ['2', '0', '0'] = some 200
    ∧ (200 : Int) ≠ 0
    ∧ (lingerMs (some ['2', '0', '0']) = 200 ∧ lingerMs none = 5000
        ∧ lingerMs (some ['0']) = 5000) :=
  ⟨by decide, by decide, linger_from_env ['2', '0', '0'] 200 (by decide) (by decide)⟩

/- ──────────────────────────────────────────────────────────────────
   Holder session state machine (holder.ts).  Sockets are modelled per
   client by the list of frames successfully written to them (`sent`),
   a half-close flag (`ended`, socket.end) and a destroy flag
   (`destroyed`, socket.destroy); timers (drain, linger) and the
   server-close callback are explicit events, so every interleaving the
   event loop can produce is a trace of `Holder.step`.
   ────────────────────────────────────────────────────────────────── -/

def attachMode : String := "attach"

def viewMode : String := "view"

def logsMode : String := "logs"

def expectedHelloMsg : String := "Expected HELLO"

def invalidHelloMsg : String := "Invalid HELLO payload"

/-- The source appends the offending version number; the model keeps the
message constant. -/
def unsupportedVersionMsg : String := "Unsupported protocol version"

def malformedFrameMsg : String := "Malformed frame"

/-- The active-attachment error (the source wraps the session name and
the suggested command in quotes; the apostrophes are omitted here). -/
def activeAttachmentMsg (name : String) : String :=
  "Session " ++ name ++ " has an active attachment. Use holdpty view "
    ++ name ++ " for read-only access."

/-- A frame written by the holder to one client socket.  `helloAck`
carries the acknowledged mode (name/cols/rows/pid omitted), `dataOut`
the payload bytes, `exit` the child exit code, `error` the message. -/
inductive SentFrame where
  | helloAck (mode : String)
  | dataOut (data : List Nat)
  | replayEnd
  | exit (code : Int)
  | error (msg : String)
deriving DecidableEq

/-- `ClientConnection`: socket + per-connection decoder + mode
(`none` = pre-handshake). -/
structure Client where
  id : Nat
  mode : Option String
  sent : List SentFrame
  ended : Bool
  destroyed : Bool
deriving DecidableEq

/-- `HelloPayload` as JSON-decoded from the wire: an arbitrary mode
string and a protocol version (JavaScript does not validate the mode). -/
structure HelloPayload where
  mode : String
  protocolVersion : Int
deriving DecidableEq

/-- A decoded incoming frame, as dispatched by `handleFrame`.  For HELLO
the outcome of `JSON.parse` on the payload is part of the event (`none`
models a parse exception). -/
inductive InFrame where
  | hello (parsed : Option HelloPayload)
  | dataIn (bytes : List Nat)
  | resize (cols rows : Nat)
  | other (t : Nat)
deriving DecidableEq

/-- The holder's state: clients, the exclusive writer slot, the ring,
the PTY input log and size, the child-exit latch, and the shutdown
machinery (`lingerTimers` = scheduled linger timeouts, `closeCalled` =
`server.close()` has been invoked, `closeCallbacks` = pending close
callbacks; the three counters record how often the shutdown sequence ran
its steps). -/
structure HolderState where
  name : String
  nextId : Nat
  clients : List Client
  writer : Option Nat
  ring : RingBuffer
  ptyInput : List (List Nat)
  ptySize : Nat × Nat
  childExited : Bool
  childExitCode : Option Int
  shuttingDown : Bool
  lingerTimers : Nat
  closeCalled : Bool
  closeCallbacks : Nat
  shutdownStarts : Nat
  removeSessionRuns : Nat
  shutdownResolves : Nat

/-- A freshly started holder. -/
def Holder.initState (name : String) : HolderState :=
  { name := name, nextId := 0, clients := [], writer := none,
    ring := RingBuffer.new DEFAULT_CAPACITY, ptyInput := [], ptySize := (120, 40),
    childExited := false, childExitCode := none, shuttingDown := false,
    lingerTimers := 0, closeCalled := false, closeCallbacks := 0,
    shutdownStarts := 0, removeSessionRuns := 0, shutdownResolves := 0 }

/-- Replace the client with the given id. -/
def updClient (clients : List Client) (cid : Nat) (g : Client → Client) : List Client :=
  clients.map fun c => if c.id = cid then g c else c

/-- `sendError` + `socket.destroy()` on a pre-handshake rejection (and on
a decoder exception). -/
def rejectClient (st : HolderState) (cid : Nat) (msg : String) : HolderState :=
  { st with clients := updClient st.clients cid fun c =>
      { c with sent := c.sent ++ [SentFrame.error msg], destroyed := true } }

/-- The frames written on handshake acceptance: `HELLO_ACK`, the ring
replay as a single `DATA_OUT` if non-empty, then `REPLAY_END`. -/
def replayFrames (st : HolderState) (mode : String) : List SentFrame :=
  [SentFrame.helloAck mode]
    ++ (if (st.ring.read).isEmpty then [] else [SentFrame.dataOut (st.ring.read)])
    ++ [SentFrame.replayEnd]

/-- The per-client effect of a successful handshake: record the mode,
send ack + replay + replay-end (plus EXIT when the child already
exited), half-close a logs client (or any client when the child already
exited). -/
def acceptUpd (st : HolderState) (mode : String) (c : Client) : Client :=
  { c with
    mode := some mode,
    sent := c.sent ++ replayFrames st mode
      ++ (if st.childExited ∧ mode ≠ logsMode then
            [SentFrame.exit (st.childExitCode.getD (-1))] else []),
    ended := if mode = logsMode then true
      else if st.childExited then true else c.ended }

/-- The successful branch of the handshake; for attach the client is
also recorded as the exclusive writer. -/
def acceptClient (st : HolderState) (cid : Nat) (mode : String) : HolderState :=
  if mode = attachMode then
    { st with
      clients := updClient st.clients cid (acceptUpd st mode),
      writer := some cid }
  else
    { st with clients := updClient st.clients cid (acceptUpd st mode) }

/-- `Holder.handleFrame` on a client and one decoded frame. -/
def Holder.handleFrame (st : HolderState) (c : Client) (f : InFrame) : HolderState :=
  match c.mode with
  | none =>
    match f with
    | .hello p =>
      match p with
      | none => rejectClient st c.id invalidHelloMsg
      | some h =>
        if h.protocolVersion ≠ 1 then rejectClient st c.id unsupportedVersionMsg
        else if h.mode = attachMode ∧ st.writer ≠ none then
          rejectClient st c.id (activeAttachmentMsg st.name)
        else acceptClient st c.id h.mode
    | _ => rejectClient st c.id expectedHelloMsg
  | some m =>
    match f with
    | .dataIn bytes =>
      if m = attachMode then { st with ptyInput := st.ptyInput ++ [bytes] } else st
    | .resize cols rows =>
      if m = attachMode then { st with ptySize := (cols, rows) } else st
    | _ => st

/-- `Holder.shutdown()`: guarded by `shuttingDown`; broadcasts EXIT to
attach/view clients and half-closes them, then schedules the linger
timer. -/
def Holder.shutdown (st : HolderState) : HolderState :=
  if st.shuttingDown then st
  else
    { st with
      shuttingDown := true,
      shutdownStarts := st.shutdownStarts + 1,
      clients := st.clients.map fun c =>
        if c.mode = some attachMode ∨ c.mode = some viewMode then
          if c.destroyed then c
          else
            { c with
              sent := c.sent ++ [SentFrame.exit (st.childExitCode.getD (-1))],
              ended := true }
        else c,
      lingerTimers := st.lingerTimers + 1 }

/-- Events delivered by the event loop.  `frame` is a complete frame
decoded from a client's data (destroyed sockets emit no events);
`decodeError` is a decoder exception on a chunk; `shutdownTrigger` is an
invocation of `shutdown()` (the drain timeout after child exit);
`lingerFire` is the linger timeout expiring; `serverClosed` is the
`server.close` callback. -/
inductive Ev where
  | connect
  | frame (cid : Nat) (f : InFrame)
  | decodeError (cid : Nat)
  | close (cid : Nat)
  | ptyData (data : List Nat)
  | childExit (code : Int)
  | shutdownTrigger
  | lingerFire
  | serverClosed

/-- One step of the holder state machine. -/
def Holder.step (st : HolderState) : Ev → HolderState
  | .connect =>
    if st.closeCalled then st
    else { st with
      clients := st.clients
        ++ [{ id := st.nextId, mode := none, sent := [], ended := false,
              destroyed := false }],
      nextId := st.nextId + 1 }
  | .frame cid f =>
    match st.clients.find? fun c => c.id == cid with
    | none => st
    | some c => if c.destroyed then st else Holder.handleFrame st c f
  | .decodeError cid =>
    match st.clients.find? fun c => c.id == cid with
    | none => st
    | some c => if c.destroyed then st else rejectClient st cid malformedFrameMsg
  | .close cid =>
    { st with
      writer := if st.writer = some cid then none else st.writer,
      clients := st.clients.filter fun c => c.id != cid }
  | .ptyData data =>
    { st with
      ring := st.ring.write data,
      clients := st.clients.map fun c =>
        if (c.mode = some attachMode ∨ c.mode = some viewMode) ∧ ¬c.destroyed then
          { c with sent := c.sent ++ [SentFrame.dataOut data] }
        else c }
  | .childExit code =>
    { st with childExited := true, childExitCode := some code }
  | .shutdownTrigger => Holder.shutdown st
  | .lingerFire =>
    if st.lingerTimers = 0 then st
    else
      { st with
        clients := [], writer := none, lingerTimers := st.lingerTimers - 1,
        closeCalled := true, closeCallbacks := st.closeCallbacks + 1 }
  | .serverClosed =>
    if st.closeCallbacks = 0 then st
    else
      { st with
        closeCallbacks := st.closeCallbacks - 1,
        removeSessionRuns := st.removeSessionRuns + 1,
        shuttingDown := false,
        shutdownResolves := st.shutdownResolves + 1 }

/-- States reachable from a fresh holder. -/
inductive Holder.Reachable (name : String) : HolderState → Prop where
  | init : Holder.Reachable name (Holder.initState name)
  | step (st : HolderState) (e : Ev) :
      Holder.Reachable name st → Holder.Reachable name (Holder.step st e)

/-- Frames only a successfully handshaken client may receive. -/
def SentFrame.isHandshakeOut : SentFrame → Bool
  | .helloAck _ => true
  | .dataOut _ => true
  | .replayEnd => true
  | _ => false

/-- Client records are keyed by their id. -/
def KeyUnique (clients : List Client) : Prop :=
  ∀ c1 ∈ clients, ∀ c2 ∈ clients, c1.id = c2.id → c1 = c2

/-- The holder invariant: client ids are unique and below `nextId`; a
client in attach mode is exactly the one the writer slot names; a
pre-handshake client has never been sent `HELLO_ACK`, `DATA_OUT` or
`REPLAY_END`. -/
def HolderInv (st : HolderState) : Prop :=
  KeyUnique st.clients ∧
  (∀ c ∈ st.clients, c.id < st.nextId) ∧
  (∀ c ∈ st.clients, c.mode = some attachMode → st.writer = some c.id) ∧
  (∀ c ∈ st.clients, c.mode = none → ∀ f ∈ c.sent, f.isHandshakeOut = false)

theorem keyUnique_map (clients : List Client) (g : Client → Client)
    (hid : ∀ c ∈ clients, (g c).id = c.id) (hkey : KeyUnique clients) :
    KeyUnique (clients.map g) := by
  intro x1 hx1 x2 hx2 hideq
  obtain ⟨c1, hc1, h1⟩ := List.mem_map.mp hx1
  obtain ⟨c2, hc2, h2⟩ := List.mem_map.mp hx2
  subst h1
  subst h2
  rw [hid c1 hc1, hid c2 hc2] at hideq
  rw [hkey c1 hc1 c2 hc2 hideq]

theorem bound_map (clients : List Client) (g : Client → Client) (n : Nat)
    (hid : ∀ c ∈ clients, (g c).id = c.id) (hb : ∀ c ∈ clients, c.id < n) :
    ∀ c ∈ clients.map g, c.id < n := by
  intro x hx
  obtain ⟨c, hc, h⟩ := List.mem_map.mp hx
  subst h
  rw [hid c hc]
  exact hb c hc

theorem updFun_id (cid : Nat) (g : Client → Client) (hg : ∀ c, (g c).id = c.id)
    (c : Client) : (if c.id = cid then g c else c).id = c.id := by
  split
  · exact hg c
  · rfl

theorem find?_eq_of_mem (clients : List Client) (hkey : KeyUnique clients)
    (c : Client) (hc : c ∈ clients) :
    clients.find? (fun x => x.id == c.id) = some c := by
  induction clients with
  | nil => simp at hc
  | cons d ds ih =>
    by_cases hd : d.id = c.id
    · have hdc : d = c := hkey d (by simp) c hc hd
      subst hdc
      exact List.find?_cons_of_pos _ (by simp)
    · have hcd : c ∈ ds := by
        rcases List.mem_cons.mp hc with h | h
        · exact absurd (by rw [h]) hd
        · exact h
      rw [List.find?_cons_of_neg _ (by simpa using hd)]
      refine ih ?_ hcd
      intro c1 hc1 c2 hc2 h
      exact hkey c1 (by simp [hc1]) c2 (by simp [hc2]) h

theorem writer_preserved_map (clients : List Client) (g : Client → Client)
    (w : Option Nat) (hid : ∀ c ∈ clients, (g c).id = c.id)
    (hmode : ∀ c ∈ clients, (g c).mode = c.mode)
    (hwriter : ∀ c ∈ clients, c.mode = some attachMode → w = some c.id) :
    ∀ x ∈ clients.map g, x.mode = some attachMode → w = some x.id := by
  intro x hx hm
  obtain ⟨c, hc, h⟩ := List.mem_map.mp hx
  subst h
  rw [hid c hc]
  refine hwriter c hc ?_
  rw [← hmode c hc]
  exact hm

theorem noack_preserved_map (clients : List Client) (g : Client → Client)
    (hmode : ∀ c ∈ clients, (g c).mode = c.mode)
    (hsent : ∀ c ∈ clients, c.mode = none →
      ∀ f ∈ (g c).sent, f ∈ c.sent ∨ f.isHandshakeOut = false)
    (hnoack : ∀ c ∈ clients, c.mode = none →
      ∀ f ∈ c.sent, f.isHandshakeOut = false) :
    ∀ x ∈ clients.map g, x.mode = none →
      ∀ f ∈ x.sent, f.isHandshakeOut = false := by
  intro x hx hm f hf
  obtain ⟨c, hc, h⟩ := List.mem_map.mp hx
  subst h
  have hcm : c.mode = none := by rw [← hmode c hc]; exact hm
  rcases hsent c hc hcm f hf with hold | hnew
  · exact hnoack c hc hcm f hold
  · exact hnew

theorem rejectClient_inv (st : HolderState) (cid : Nat) (msg : String)
    (hinv : HolderInv st) : HolderInv (rejectClient st cid msg) := by
  obtain ⟨hkey, hbound, hwriter, hnoack⟩ := hinv
  have hid : ∀ c ∈ st.clients,
      ((if c.id = cid then
          { c with sent := c.sent ++ [SentFrame.error msg], destroyed := true }
        else c) : Client).id = c.id := by
    intro c _
    by_cases h : c.id = cid
    · rw [if_pos h]
    · rw [if_neg h]
  have hmode : ∀ c ∈ st.clients,
      ((if c.id = cid then
          { c with sent := c.sent ++ [SentFrame.error msg], destroyed := true }
        else c) : Client).mode = c.mode := by
    intro c _
    by_cases h : c.id = cid
    · rw [if_pos h]
    · rw [if_neg h]
  refine ⟨keyUnique_map _ _ hid hkey, bound_map _ _ _ hid hbound,
    writer_preserved_map _ _ _ hid hmode hwriter,
    noack_preserved_map _ _ hmode ?_ hnoack⟩
  intro c _ _ f hf
  by_cases h : c.id = cid
  · rw [if_pos h] at hf
    simp only [List.mem_append, List.mem_singleton] at hf
    rcases hf with hf | hf
    · exact Or.inl hf
    · subst hf
      exact Or.inr rfl
  · rw [if_neg h] at hf
    exact Or.inl hf

theorem updClient_mem (clients : List Client) (cid : Nat) (g : Client → Client)
    (x : Client) (hx : x ∈ updClient clients cid g) :
    ∃ c ∈ clients, x = if c.id = cid then g c else c := by
  obtain ⟨c, hc, h⟩ := List.mem_map.mp hx
  exact ⟨c, hc, h.symm⟩

theorem acceptClient_inv (st : HolderState) (c : Client) (mode : String)
    (hinv : HolderInv st) (hc : c ∈ st.clients)
    (hguard : mode = attachMode → st.writer = none) :
    HolderInv (acceptClient st c.id mode) := by
  obtain ⟨hkey, hbound, hwriter, hnoack⟩ := hinv
  have hid : ∀ x ∈ st.clients,
      ((if x.id = c.id then acceptUpd st mode x else x) : Client).id = x.id :=
    fun x _ => updFun_id c.id (acceptUpd st mode) (fun _ => rfl) x
  unfold acceptClient
  by_cases hattach : mode = attachMode
  · rw [if_pos hattach]
    refine ⟨keyUnique_map _ _ hid hkey, bound_map _ _ _ hid hbound, ?_, ?_⟩
    · intro x hx hxmode
      obtain ⟨c2, hc2, hx2⟩ := updClient_mem _ _ _ x hx
      by_cases h2 : c2.id = c.id
      · rw [if_pos h2] at hx2
        subst hx2
        show some c.id = some (acceptUpd st mode c2).id
        rw [show (acceptUpd st mode c2).id = c2.id from rfl, h2]
      · rw [if_neg h2] at hx2
        subst hx2
        have := hwriter _ hc2 hxmode
        rw [hguard hattach] at this
        exact Option.noConfusion this
    · intro x hx hxmode f hf
      obtain ⟨c2, hc2, hx2⟩ := updClient_mem _ _ _ x hx
      by_cases h2 : c2.id = c.id
      · rw [if_pos h2] at hx2
        subst hx2
        exact Option.noConfusion (show some mode = none from hxmode)
      · rw [if_neg h2] at hx2
        subst hx2
        exact hnoack _ hc2 hxmode f hf
  · rw [if_neg hattach]
    refine ⟨keyUnique_map _ _ hid hkey, bound_map _ _ _ hid hbound, ?_, ?_⟩
    · intro x hx hxmode
      obtain ⟨c2, hc2, hx2⟩ := updClient_mem _ _ _ x hx
      by_cases h2 : c2.id = c.id
      · rw [if_pos h2] at hx2
        subst hx2
        have : mode = attachMode :=
          Option.some_inj.mp (show some mode = some attachMode from hxmode)
        exact absurd this hattach
      · rw [if_neg h2] at hx2
        subst hx2
        exact hwriter _ hc2 hxmode
    · intro x hx hxmode f hf
      obtain ⟨c2, hc2, hx2⟩ := updClient_mem _ _ _ x hx
      by_cases h2 : c2.id = c.id
      · rw [if_pos h2] at hx2
        subst hx2
        exact Option.noConfusion (show some mode = none from hxmode)
      · rw [if_neg h2] at hx2
        subst hx2
        exact hnoack _ hc2 hxmode f hf

theorem handleFrame_hello_none_eq (st : HolderState) (c : Client)
    (hmode : c.mode = none) :
    Holder.handleFrame st c (.hello none) = rejectClient st c.id invalidHelloMsg := by
  unfold Holder.handleFrame
  rw [hmode]

theorem handleFrame_hello_some_eq (st : HolderState) (c : Client) (h : HelloPayload)
    (hmode : c.mode = none) :
    Holder.handleFrame st c (.hello (some h))
      = if h.protocolVersion ≠ 1 then rejectClient st c.id unsupportedVersionMsg
        else if h.mode = attachMode ∧ st.writer ≠ none then
          rejectClient st c.id (activeAttachmentMsg st.name)
        else acceptClient st c.id h.mode := by
  unfold Holder.handleFrame
  rw [hmode]

theorem handleFrame_dataIn_pre_eq (st : HolderState) (c : Client) (bytes : List Nat)
    (hmode : c.mode = none) :
    Holder.handleFrame st c (.dataIn bytes) = rejectClient st c.id expectedHelloMsg := by
  unfold Holder.handleFrame
  rw [hmode]

theorem handleFrame_resize_pre_eq (st : HolderState) (c : Client) (cols rows : Nat)
    (hmode : c.mode = none) :
    Holder.handleFrame st c (.resize cols rows)
      = rejectClient st c.id expectedHelloMsg := by
  unfold Holder.handleFrame
  rw [hmode]

theorem handleFrame_other_pre_eq (st : HolderState) (c : Client) (t : Nat)
    (hmode : c.mode = none) :
    Holder.handleFrame st c (.other t) = rejectClient st c.id expectedHelloMsg := by
  unfold Holder.handleFrame
  rw [hmode]

theorem handleFrame_hello_post_eq (st : HolderState) (c : Client) (m : String)
    (p : Option HelloPayload) (hmode : c.mode = some m) :
    Holder.handleFrame st c (.hello p) = st := by
  unfold Holder.handleFrame
  rw [hmode]

theorem handleFrame_dataIn_post_eq (st : HolderState) (c : Client) (m : String)
    (bytes : List Nat) (hmode : c.mode = some m) :
    Holder.handleFrame st c (.dataIn bytes)
      = if m = attachMode then { st with ptyInput := st.ptyInput ++ [bytes] }
        else st := by
  unfold Holder.handleFrame
  rw [hmode]

theorem handleFrame_resize_post_eq (st : HolderState) (c : Client) (m : String)
    (cols rows : Nat) (hmode : c.mode = some m) :
    Holder.handleFrame st c (.resize cols rows)
      = if m = attachMode then { st with ptySize := (cols, rows) } else st := by
  unfold Holder.handleFrame
  rw [hmode]

theorem handleFrame_other_post_eq (st : HolderState) (c : Client) (m : String)
    (t : Nat) (hmode : c.mode = some m) :
    Holder.handleFrame st c (.other t) = st := by
  unfold Holder.handleFrame
  rw [hmode]

theorem handleFrame_inv (st : HolderState) (c : Client) (f : InFrame)
    (hinv : HolderInv st) (hc : c ∈ st.clients) :
    HolderInv (Holder.handleFrame st c f) := by
  rcases hmode : c.mode with - | m
  · rcases f with p | bytes | ⟨cols, rows⟩ | t
    · rcases p with - | h
      · rw [handleFrame_hello_none_eq st c hmode]
        exact rejectClient_inv st c.id invalidHelloMsg hinv
      · rw [handleFrame_hello_some_eq st c h hmode]
        by_cases hv : h.protocolVersion ≠ 1
        · rw [if_pos hv]
          exact rejectClient_inv st c.id unsupportedVersionMsg hinv
        · rw [if_neg hv]
          by_cases hocc : h.mode = attachMode ∧ st.writer ≠ none
          · rw [if_pos hocc]
            exact rejectClient_inv st c.id (activeAttachmentMsg st.name) hinv
          · rw [if_neg hocc]
            refine acceptClient_inv st c h.mode hinv hc ?_
            intro hm
            by_contra hw
            exact hocc ⟨hm, hw⟩
    · rw [handleFrame_dataIn_pre_eq st c bytes hmode]
      exact rejectClient_inv st c.id expectedHelloMsg hinv
    · rw [handleFrame_resize_pre_eq st c cols rows hmode]
      exact rejectClient_inv st c.id expectedHelloMsg hinv
    · rw [handleFrame_other_pre_eq st c t hmode]
      exact rejectClient_inv st c.id expectedHelloMsg hinv
  · obtain ⟨hkey, hbound, hwriter, hnoack⟩ := hinv
    rcases f with p | bytes | ⟨cols, rows⟩ | t
    · rw [handleFrame_hello_post_eq st c m p hmode]
      exact ⟨hkey, hbound, hwriter, hnoack⟩
    · rw [handleFrame_dataIn_post_eq st c m bytes hmode]
      by_cases hm : m = attachMode
      · rw [if_pos hm]
        exact ⟨hkey, hbound, hwriter, hnoack⟩
      · rw [if_neg hm]
        exact ⟨hkey, hbound, hwriter, hnoack⟩
    · rw [handleFrame_resize_post_eq st c m cols rows hmode]
      by_cases hm : m = attachMode
      · rw [if_pos hm]
        exact ⟨hkey, hbound, hwriter, hnoack⟩
      · rw [if_neg hm]
        exact ⟨hkey, hbound, hwriter, hnoack⟩
    · rw [handleFrame_other_post_eq st c m t hmode]
      exact ⟨hkey, hbound, hwriter, hnoack⟩

theorem step_connect_eq (st : HolderState) :
    Holder.step st .connect
      = if st.closeCalled then st
        else { st with
          clients := st.clients
            ++ [{ id := st.nextId, mode := none, sent := [], ended := false,
                  destroyed := false }],
          nextId := st.nextId + 1 } := rfl

theorem step_frame_match_eq (st : HolderState) (cid : Nat) (f : InFrame) :
    Holder.step st (.frame cid f)
      = match st.clients.find? (fun c => c.id == cid) with
        | none => st
        | some c => if c.destroyed then st else Holder.handleFrame st c f := rfl

theorem step_frame_none_eq (st : HolderState) (cid : Nat) (f : InFrame)
    (hfind : st.clients.find? (fun c => c.id == cid) = none) :
    Holder.step st (.frame cid f) = st := by
  rw [step_frame_match_eq, hfind]

theorem step_frame_some_eq (st : HolderState) (cid : Nat) (f : InFrame) (c : Client)
    (hfind : st.clients.find? (fun c => c.id == cid) = some c) :
    Holder.step st (.frame cid f)
      = if c.destroyed then st else Holder.handleFrame st c f := by
  rw [step_frame_match_eq, hfind]

theorem step_decodeError_match_eq (st : HolderState) (cid : Nat) :
    Holder.step st (.decodeError cid)
      = match st.clients.find? (fun c => c.id == cid) with
        | none => st
        | some c => if c.destroyed then st else rejectClient st cid malformedFrameMsg := rfl

theorem step_decodeError_none_eq (st : HolderState) (cid : Nat)
    (hfind : st.clients.find? (fun c => c.id == cid) = none) :
    Holder.step st (.decodeError cid) = st := by
  rw [step_decodeError_match_eq, hfind]

theorem step_decodeError_some_eq (st : HolderState) (cid : Nat) (c : Client)
    (hfind : st.clients.find? (fun c => c.id == cid) = some c) :
    Holder.step st (.decodeError cid)
      = if c.destroyed then st else rejectClient st cid malformedFrameMsg := by
  rw [step_decodeError_match_eq, hfind]

theorem step_close_eq (st : HolderState) (cid : Nat) :
    Holder.step st (.close cid)
      = { st with
          writer := if st.writer = some cid then none else st.writer,
          clients := st.clients.filter fun c => c.id != cid } := rfl

theorem step_ptyData_eq (st : HolderState) (data : List Nat) :
    Holder.step st (.ptyData data)
      = { st with
          ring := st.ring.write data,
          clients := st.clients.map fun c =>
            if (c.mode = some attachMode ∨ c.mode = some viewMode) ∧ ¬c.destroyed then
              { c with sent := c.sent ++ [SentFrame.dataOut data] }
            else c } := rfl

theorem step_childExit_eq (st : HolderState) (code : Int) :
    Holder.step st (.childExit code)
      = { st with childExited := true, childExitCode := some code } := rfl

theorem step_shutdownTrigger_eq (st : HolderState) :
    Holder.step st .shutdownTrigger = Holder.shutdown st := rfl

theorem step_lingerFire_eq (st : HolderState) :
    Holder.step st .lingerFire
      = if st.lingerTimers = 0 then st
        else
          { st with
            clients := [], writer := none, lingerTimers := st.lingerTimers - 1,
            closeCalled := true, closeCallbacks := st.closeCallbacks + 1 } := rfl

theorem step_serverClosed_eq (st : HolderState) :
    Holder.step st .serverClosed
      = if st.closeCallbacks = 0 then st
        else
          { st with
            closeCallbacks := st.closeCallbacks - 1,
            removeSessionRuns := st.removeSessionRuns + 1,
            shuttingDown := false,
            shutdownResolves := st.shutdownResolves + 1 } := rfl

theorem step_inv (st : HolderState) (e : Ev) (hinv : HolderInv st) :
    HolderInv (Holder.step st e) := by
  have hinv' := hinv
  obtain ⟨hkey, hbound, hwriter, hnoack⟩ := hinv'
  cases e with
  | connect =>
    rw [step_connect_eq]
    by_cases hcc : st.closeCalled
    · rw [if_pos hcc]
      exact hinv
    · rw [if_neg hcc]
      refine ⟨?_, ?_, ?_, ?_⟩
      · intro c1 hc1 c2 hc2 hid
        simp only [List.mem_append, List.mem_singleton] at hc1 hc2
        rcases hc1 with hc1 | hc1 <;> rcases hc2 with hc2 | hc2
        · exact hkey c1 hc1 c2 hc2 hid
        · subst hc2
          have := hbound c1 hc1
          simp only [] at hid
          omega
        · subst hc1
          have := hbound c2 hc2
          simp only [] at hid
          omega
        · rw [hc1, hc2]
      · intro c hc
        simp only [List.mem_append, List.mem_singleton] at hc
        rcases hc with hc | hc
        · have := hbound c hc
          simp only []
          omega
        · subst hc
          simp only []
          omega
      · intro c hc hm
        simp only [List.mem_append, List.mem_singleton] at hc
        rcases hc with hc | hc
        · exact hwriter c hc hm
        · subst hc
          simp only [] at hm
          exact Option.noConfusion hm
      · intro c hc hm f hf
        simp only [List.mem_append, List.mem_singleton] at hc
        rcases hc with hc | hc
        · exact hnoack c hc hm f hf
        · subst hc
          simp only [] at hf
          exact absurd hf (List.not_mem_nil f)
  | frame cid f =>
    rcases hfind : st.clients.find? (fun c => c.id == cid) with - | c
    · rw [step_frame_none_eq st cid f hfind]
      exact hinv
    · rw [step_frame_some_eq st cid f c hfind]
      by_cases hd : c.destroyed
      · rw [if_pos hd]
        exact hinv
      · rw [if_neg hd]
        exact handleFrame_inv st c f hinv (List.mem_of_find?_eq_some hfind)
  | decodeError cid =>
    rcases hfind : st.clients.find? (fun c => c.id == cid) with - | c
    · rw [step_decodeError_none_eq st cid hfind]
      exact hinv
    · rw [step_decodeError_some_eq st cid c hfind]
      by_cases hd : c.destroyed
      · rw [if_pos hd]
        exact hinv
      · rw [if_neg hd]
        exact rejectClient_inv st cid malformedFrameMsg hinv
  | close cid =>
    rw [step_close_eq]
    refine ⟨?_, ?_, ?_, ?_⟩
    · intro c1 hc1 c2 hc2 hid
      exact hkey c1 (List.mem_of_mem_filter hc1) c2 (List.mem_of_mem_filter hc2) hid
    · intro c hc
      exact hbound c (List.mem_of_mem_filter hc)
    · intro c hc hm
      have hcm := List.mem_of_mem_filter hc
      have hcf := List.of_mem_filter hc
      simp only [bne_iff_ne, ne_eq] at hcf
      have := hwriter c hcm hm
      by_cases hw : st.writer = some cid
      · exfalso
        rw [hw] at this
        rw [Option.some_inj] at this
        exact hcf this.symm
      · rw [if_neg hw]
        exact this
    · intro c hc hm f hf
      exact hnoack c (List.mem_of_mem_filter hc) hm f hf
  | ptyData data =>
    rw [step_ptyData_eq]
    have hid : ∀ c ∈ st.clients,
        ((if (c.mode = some attachMode ∨ c.mode = some viewMode) ∧ ¬c.destroyed then
            { c with sent := c.sent ++ [SentFrame.dataOut data] }
          else c) : Client).id = c.id := by
      intro c _
      by_cases h : (c.mode = some attachMode ∨ c.mode = some viewMode) ∧ ¬c.destroyed
      · rw [if_pos h]
      · rw [if_neg h]
    have hmode : ∀ c ∈ st.clients,
        ((if (c.mode = some attachMode ∨ c.mode = some viewMode) ∧ ¬c.destroyed then
            { c with sent := c.sent ++ [SentFrame.dataOut data] }
          else c) : Client).mode = c.mode := by
      intro c _
      by_cases h : (c.mode = some attachMode ∨ c.mode = some viewMode) ∧ ¬c.destroyed
      · rw [if_pos h]
      · rw [if_neg h]
    refine ⟨keyUnique_map _ _ hid hkey, bound_map _ _ _ hid hbound,
      writer_preserved_map _ _ _ hid hmode hwriter,
      noack_preserved_map _ _ hmode ?_ hnoack⟩
    intro c _ hcm f hf
    have hcond : ¬((c.mode = some attachMode ∨ c.mode = some viewMode) ∧ ¬c.destroyed) := by
      rw [hcm]
      simp
    rw [if_neg hcond] at hf
    exact Or.inl hf
  | childExit code =>
    rw [step_childExit_eq]
    exact hinv
  | shutdownTrigger =>
    rw [step_shutdownTrigger_eq]
    unfold Holder.shutdown
    by_cases hsd : st.shuttingDown
    · rw [if_pos hsd]
      exact hinv
    · rw [if_neg hsd]
      have hid : ∀ c ∈ st.clients,
          ((if c.mode = some attachMode ∨ c.mode = some viewMode then
              if c.destroyed then c
              else
                { c with
                  sent := c.sent ++ [SentFrame.exit (st.childExitCode.getD (-1))],
                  ended := true }
            else c) : Client).id = c.id := by
        intro c _
        by_cases h : c.mode = some attachMode ∨ c.mode = some viewMode
        · rw [if_pos h]
          by_cases h2 : c.destroyed
          · rw [if_pos h2]
          · rw [if_neg h2]
        · rw [if_neg h]
      have hmode : ∀ c ∈ st.clients,
          ((if c.mode = some attachMode ∨ c.mode = some viewMode then
              if c.destroyed then c
              else
                { c with
                  sent := c.sent ++ [SentFrame.exit (st.childExitCode.getD (-1))],
                  ended := true }
            else c) : Client).mode = c.mode := by
        intro c _
        by_cases h : c.mode = some attachMode ∨ c.mode = some viewMode
        · rw [if_pos h]
          by_cases h2 : c.destroyed
          · rw [if_pos h2]
          · rw [if_neg h2]
        · rw [if_neg h]
      refine ⟨keyUnique_map _ _ hid hkey, bound_map _ _ _ hid hbound,
        writer_preserved_map _ _ _ hid hmode hwriter,
        noack_preserved_map _ _ hmode ?_ hnoack⟩
      intro c _ hcm f hf
      have hcond : ¬(c.mode = some attachMode ∨ c.mode = some viewMode) := by
        rw [hcm]
        simp
      rw [if_neg hcond] at hf
      exact Or.inl hf
  | lingerFire =>
    rw [step_lingerFire_eq]
    by_cases hl : st.lingerTimers = 0
    · rw [if_pos hl]
      exact hinv
    · rw [if_neg hl]
      refine ⟨?_, ?_, ?_, ?_⟩
      · intro c1 hc1
        simp at hc1
      · intro c hc
        simp at hc
      · intro c hc
        simp at hc
      · intro c hc
        simp at hc
  | serverClosed =>
    rw [step_serverClosed_eq]
    by_cases hl : st.closeCallbacks = 0
    · rw [if_pos hl]
      exact hinv
    · rw [if_neg hl]
      exact hinv

theorem holderInv_init (name : String) : HolderInv (Holder.initState name) := by
  refine ⟨?_, ?_, ?_, ?_⟩
  · intro c hc
    simp [Holder.initState] at hc
  · intro c hc
    simp [Holder.initState] at hc
  · intro c hc
    simp [Holder.initState] at hc
  · intro c hc
    simp [Holder.initState] at hc

theorem holderInv_reachable (name : String) (st : HolderState)
    (h : Holder.Reachable name st) : HolderInv st := by
  induction h with
  | init => exact holderInv_init name
  | step st e _ ih => exact step_inv st e ih

def sampleName : String := "s"

theorem find?_updClient (clients : List Client) (hkey : KeyUnique clients)
    (c : Client) (hc : c ∈ clients) (g : Client → Client)
    (hgid : ∀ x, (g x).id = x.id) :
    (updClient clients c.id g).find? (fun x => x.id == c.id) = some (g c) := by
  have hmem : (if c.id = c.id then g c else c) ∈ updClient clients c.id g :=
    List.mem_map_of_mem _ hc
  rw [if_pos rfl] at hmem
  have hkey' : KeyUnique (updClient clients c.id g) :=
    keyUnique_map _ _ (fun x _ => updFun_id c.id g hgid x) hkey
  have := find?_eq_of_mem (updClient clients c.id g) hkey' (g c) hmem
  rw [hgid c] at this
  exact this

theorem acceptClient_attach_writer_eq (st : HolderState) (cid : Nat) :
    (acceptClient st cid attachMode).writer = some cid := by
  unfold acceptClient
  rw [if_pos rfl]

theorem acceptClient_nonattach_writer_eq (st : HolderState) (cid : Nat)
    (mode : String) (h : mode ≠ attachMode) :
    (acceptClient st cid mode).writer = st.writer := by
  unfold acceptClient
  rw [if_neg h]

theorem acceptClient_clients_eq (st : HolderState) (cid : Nat) (mode : String) :
    (acceptClient st cid mode).clients = updClient st.clients cid (acceptUpd st mode) := by
  unfold acceptClient
  by_cases h : mode = attachMode
  · rw [if_pos h]
  · rw [if_neg h]

/-- Claim C3: in every reachable holder state, (a) at most one connected
client has mode attach; (b) a HELLO with mode attach while the writer
slot is occupied is answered with an ERROR frame and the socket is
destroyed, and nothing ever sent on that connection (the ERROR included)
is a HELLO_ACK, DATA_OUT or REPLAY_END — the connection closes before
any HELLO_ACK; (c) when the current attach client closes or errors, the
writer slot is released; (d) with the slot free, an attach handshake
succeeds: the client becomes the writer, is marked attach, and receives
HELLO_ACK. -/
theorem holder_single_attach (name : String) (st : HolderState)
    (hreach : Holder.Reachable name st) :
    (∀ c1 ∈ st.clients, ∀ c2 ∈ st.clients,
      c1.mode = some attachMode → c2.mode = some attachMode → c1 = c2)
    ∧ (∀ c ∈ st.clients, ¬c.destroyed → c.mode = none → ∀ h : HelloPayload,
        h.protocolVersion = 1 → h.mode = attachMode → st.writer ≠ none →
        (Holder.step st (.frame c.id (.hello (some h)))).clients.find?
            (fun x => x.id == c.id)
          = some { c with
              sent := c.sent ++ [SentFrame.error (activeAttachmentMsg st.name)],
              destroyed := true }
        ∧ ∀ fr ∈ c.sent ++ [SentFrame.error (activeAttachmentMsg st.name)],
            fr.isHandshakeOut = false)
    ∧ (∀ cid, st.writer = some cid → (Holder.step st (.close cid)).writer = none)
    ∧ (∀ c ∈ st.clients, ¬c.destroyed → c.mode = none → ∀ h : HelloPayload,
        h.protocolVersion = 1 → h.mode = attachMode → st.writer = none →
        (Holder.step st (.frame c.id (.hello (some h)))).writer = some c.id
        ∧ (Holder.step st (.frame c.id (.hello (some h)))).clients.find?
            (fun x => x.id == c.id) = some (acceptUpd st attachMode c)
        ∧ (acceptUpd st attachMode c).mode = some attachMode
        ∧ SentFrame.helloAck attachMode ∈ (acceptUpd st attachMode c).sent) := by
  obtain ⟨hkey, hbound, hwriter, hnoack⟩ := holderInv_reachable name st hreach
  refine ⟨?_, ?_, ?_, ?_⟩
  · intro c1 hc1 c2 hc2 hm1 hm2
    have h1 := hwriter c1 hc1 hm1
    have h2 := hwriter c2 hc2 hm2
    rw [h1] at h2
    exact hkey c1 hc1 c2 hc2 (Option.some_inj.mp h2)
  · intro c hc hd hm h hv hattach hocc
    have hfind := find?_eq_of_mem st.clients hkey c hc
    rw [step_frame_some_eq st c.id _ c hfind, if_neg hd,
      handleFrame_hello_some_eq st c h hm,
      if_neg (show ¬h.protocolVersion ≠ 1 by rw [hv]; simp),
      if_pos ⟨hattach, hocc⟩]
    constructor
    · exact find?_updClient st.clients hkey c hc
        (fun x => { x with
          sent := x.sent ++ [SentFrame.error (activeAttachmentMsg st.name)],
          destroyed := true })
        (fun _ => rfl)
    · intro fr hfr
      rcases List.mem_append.mp hfr with hfr | hfr
      · exact hnoack c hc hm fr hfr
      · rw [List.mem_singleton.mp hfr]
        rfl
  · intro cid hw
    rw [step_close_eq]
    show (if st.writer = some cid then none else st.writer) = none
    rw [if_pos hw]
  · intro c hc hd hm h hv hattach hfree
    have hfind := find?_eq_of_mem st.clients hkey c hc
    rw [step_frame_some_eq st c.id _ c hfind, if_neg hd,
      handleFrame_hello_some_eq st c h hm,
      if_neg (show ¬h.protocolVersion ≠ 1 by rw [hv]; simp),
      if_neg (show ¬(h.mode = attachMode ∧ st.writer ≠ none) by
        intro hcon
        exact hcon.2 hfree),
      hattach]
    refine ⟨acceptClient_attach_writer_eq st c.id, ?_, rfl, ?_⟩
    · rw [acceptClient_clients_eq]
      exact find?_updClient st.clients hkey c hc (acceptUpd st attachMode)
        (fun _ => rfl)
    · show SentFrame.helloAck attachMode ∈
        c.sent ++ replayFrames st attachMode
          ++ (if st.childExited ∧ attachMode ≠ logsMode then
                [SentFrame.exit (st.childExitCode.getD (-1))] else [])
      simp [replayFrames]

/-- Witness for C3: a fresh holder, one connection, attach handshake;
the writer slot then names client 0, and its close event releases it. -/
theorem holder_single_attach_witness :
    (Holder.step (Holder.step (Holder.initState sampleName) .connect)
        (.frame 0 (.hello (some ⟨attachMode, 1⟩)))).writer = some 0
    ∧ (Holder.step (Holder.step (Holder.step (Holder.initState sampleName) .connect)
        (.frame 0 (.hello (some ⟨attachMode, 1⟩)))) (.close 0)).writer = none :=
  ⟨by decide,
    (holder_single_attach sampleName
        (Holder.step (Holder.step (Holder.initState sampleName) .connect)
          (.frame 0 (.hello (some ⟨attachMode, 1⟩))))
        (Holder.Reachable.step _ _ (Holder.Reachable.step _ _ Holder.Reachable.init))).2.2.1
      0 (by decide)⟩

/-- Claim C7: (a) a connected client whose first complete frame is not
HELLO is sent `ERROR("Expected HELLO")` and its socket destroyed; (b) a
pre-handshake client has never been sent HELLO_ACK, DATA_OUT or
REPLAY_END (so none precede, or ever follow, the ERROR: a destroyed
socket emits no further frame events, and by (c) such events would be
ignored anyway, so the connection stays pre-handshake forever); (c) a
destroyed client's frame events do not change the holder state. -/
theorem holder_requires_hello_first (name : String) (st : HolderState)
    (hreach : Holder.Reachable name st) :
    (∀ c ∈ st.clients, ¬c.destroyed → c.mode = none →
      ∀ f : InFrame, (∀ p, f ≠ .hello p) →
      (Holder.step st (.frame c.id f)).clients.find? (fun x => x.id == c.id)
        = some { c with
            sent := c.sent ++ [SentFrame.error expectedHelloMsg],
            destroyed := true })
    ∧ (∀ c ∈ st.clients, c.mode = none → ∀ fr ∈ c.sent, fr.isHandshakeOut = false)
    ∧ (∀ c ∈ st.clients, c.destroyed → ∀ f, Holder.step st (.frame c.id f) = st) := by
  obtain ⟨hkey, hbound, hwriter, hnoack⟩ := holderInv_reachable name st hreach
  refine ⟨?_, ?_, ?_⟩
  · intro c hc hd hm f hnh
    have hfind := find?_eq_of_mem st.clients hkey c hc
    rw [step_frame_some_eq st c.id _ c hfind, if_neg hd]
    have hreject : Holder.handleFrame st c f = rejectClient st c.id expectedHelloMsg := by
      rcases f with p | bytes | ⟨cols, rows⟩ | t
      · exact absurd rfl (hnh p)
      · exact handleFrame_dataIn_pre_eq st c bytes hm
      · exact handleFrame_resize_pre_eq st c cols rows hm
      · exact handleFrame_other_pre_eq st c t hm
    rw [hreject]
    exact find?_updClient st.clients hkey c hc
      (fun x => { x with
        sent := x.sent ++ [SentFrame.error expectedHelloMsg], destroyed := true })
      (fun _ => rfl)
  · intro c hc hm fr hfr
    exact hnoack c hc hm fr hfr
  · intro c hc hd f
    have hfind := find?_eq_of_mem st.clients hkey c hc
    rw [step_frame_some_eq st c.id _ c hfind, if_pos hd]

/-- Witness for C7: a fresh holder, one connection, first frame is
DATA_IN — the client record then shows the ERROR and the destroyed
socket. -/
theorem holder_requires_hello_first_witness :
    (Holder.step (Holder.step (Holder.initState sampleName) .connect)
        (.frame 0 (.dataIn [3]))).clients.find? (fun x => x.id == 0)
      = some { id := 0, mode := none, sent := [SentFrame.error expectedHelloMsg],
               ended := false, destroyed := true } :=
  (holder_requires_hello_first sampleName
      (Holder.step (Holder.initState sampleName) .connect)
      (Holder.Reachable.step _ _ Holder.Reachable.init)).1
    { id := 0, mode := none, sent := [], ended := false, destroyed := false }
    (by decide) (by decide) (by decide) (.dataIn [3])
    (fun p h => InFrame.noConfusion h)

/-- Counterexample to claim C9 as stated: `"view"` is a string other
than `"attach"` and `"logs"`, yet a client that sends HELLO with mode
`"view"` does receive a live DATA_OUT broadcast after its replay. -/
theorem view_client_receives_broadcast :
    (Holder.step (Holder.step (Holder.step (Holder.initState sampleName) .connect)
        (.frame 0 (.hello (some ⟨viewMode, 1⟩)))) (.ptyData [104])).clients.find?
        (fun x => x.id == 0)
      = some { id := 0, mode := some viewMode,
               sent := [SentFrame.helloAck viewMode, SentFrame.replayEnd,
                 SentFrame.dataOut [104]],
               ended := false, destroyed := false } := by
  decide

/-- Claim C9 (amended): the holder does not validate the HELLO mode
string.  For a HELLO with protocol version 1 and any mode other than
attach, view and logs (e.g. "wait" or an arbitrary string), while the
child is running: the handshake is accepted — the client gets HELLO_ACK,
the replay (if the ring is non-empty) and REPLAY_END, does not occupy
the writer slot, is not half-closed or destroyed — and PTY-output
broadcasts never touch clients whose mode is not exactly attach or view
(mode "view" does receive them, and when the child has already exited
the handshake additionally sends EXIT and half-closes). -/
theorem holder_accepts_unknown_mode (st : HolderState)
    (hkey : KeyUnique st.clients) (c : Client) (hc : c ∈ st.clients)
    (hd : ¬c.destroyed) (hm : c.mode = none) (h : HelloPayload)
    (hv : h.protocolVersion = 1) (hna : h.mode ≠ attachMode)
    (hnl : h.mode ≠ logsMode) (hchild : st.childExited = false) :
    (Holder.step st (.frame c.id (.hello (some h)))).writer = st.writer
    ∧ (Holder.step st (.frame c.id (.hello (some h)))).clients.find?
        (fun x => x.id == c.id)
      = some { c with
          mode := some h.mode,
          sent := c.sent ++ replayFrames st h.mode }
    ∧ (∀ data : List Nat, ∀ x ∈ st.clients, x.mode ≠ some attachMode →
        x.mode ≠ some viewMode → x ∈ (Holder.step st (.ptyData data)).clients) := by
  have hfind := find?_eq_of_mem st.clients hkey c hc
  have haccept : acceptUpd st h.mode c
      = { c with mode := some h.mode, sent := c.sent ++ replayFrames st h.mode } := by
    unfold acceptUpd
    rw [hchild,
      if_neg (show ¬(false = true ∧ h.mode ≠ logsMode) by simp),
      if_neg hnl,
      if_neg (show ¬false = true by simp),
      List.append_nil]
  refine ⟨?_, ?_, ?_⟩
  · rw [step_frame_some_eq st c.id _ c hfind, if_neg hd,
      handleFrame_hello_some_eq st c h hm,
      if_neg (show ¬h.protocolVersion ≠ 1 by rw [hv]; simp),
      if_neg (show ¬(h.mode = attachMode ∧ st.writer ≠ none) by
        intro hcon
        exact hna hcon.1)]
    exact acceptClient_nonattach_writer_eq st c.id h.mode hna
  · rw [step_frame_some_eq st c.id _ c hfind, if_neg hd,
      handleFrame_hello_some_eq st c h hm,
      if_neg (show ¬h.protocolVersion ≠ 1 by rw [hv]; simp),
      if_neg (show ¬(h.mode = attachMode ∧ st.writer ≠ none) by
        intro hcon
        exact hna hcon.1),
      acceptClient_clients_eq, ← haccept]
    exact find?_updClient st.clients hkey c hc (acceptUpd st h.mode) (fun _ => rfl)
  · intro data x hx hxa hxv
    rw [step_ptyData_eq]
    have hcond : ¬((x.mode = some attachMode ∨ x.mode = some viewMode)
        ∧ ¬x.destroyed) := by
      intro hcon
      rcases hcon.1 with hh | hh
      · exact hxa hh
      · exact hxv hh
    have hfx : (if (x.mode = some attachMode ∨ x.mode = some viewMode)
          ∧ ¬x.destroyed then
        { x with sent := x.sent ++ [SentFrame.dataOut data] } else x) = x :=
      if_neg hcond
    exact hfx ▸ List.mem_map_of_mem _ hx

/-- Witness for the amended C9: a fresh holder, one connection, HELLO
with the Phase-2 mode "wait". -/
theorem holder_accepts_unknown_mode_witness :
    (Holder.step (Holder.step (Holder.initState sampleName) .connect)
        (.frame 0 (.hello (some ⟨"wait", 1⟩)))).writer
      = (Holder.step (Holder.initState sampleName) .connect).writer
    ∧ (Holder.step (Holder.step (Holder.initState sampleName) .connect)
        (.frame 0 (.hello (some ⟨"wait", 1⟩)))).clients.find?
        (fun x => x.id == 0)
      = some { id := 0, mode := some "wait",
               sent := [] ++ replayFrames
                 (Holder.step (Holder.initState sampleName) .connect) "wait",
               ended := false, destroyed := false } :=
  ⟨(holder_accepts_unknown_mode (Holder.step (Holder.initState sampleName) .connect)
      (by unfold KeyUnique; decide)
      { id := 0, mode := none, sent := [], ended := false, destroyed := false }
      (by decide) (by decide) (by decide) ⟨"wait", 1⟩ (by decide) (by decide) (by decide)
      (by decide)).1,
   (holder_accepts_unknown_mode (Holder.step (Holder.initState sampleName) .connect)
      (by unfold KeyUnique; decide)
      { id := 0, mode := none, sent := [], ended := false, destroyed := false }
      (by decide) (by decide) (by decide) ⟨"wait", 1⟩ (by decide) (by decide) (by decide)
      (by decide)).2.1⟩

/-- Claim C6 is contradicted by the code: `shutdown()` resets
`shuttingDown` to `false` in the `server.close` callback, so a trigger
arriving after a completed run re-executes the entire sequence.  On the
trace trigger → linger fires → server-close callback → trigger → linger
fires → server-close callback, the sequence runs twice: two shutdown
starts, two `removeSession` runs, two resolutions of the
shutdown-complete latch. -/
theorem shutdown_reruns_after_completed_run :
    (Holder.step (Holder.step (Holder.step (Holder.initState sampleName)
        .shutdownTrigger) .lingerFire) .serverClosed).shuttingDown = false
    ∧ (Holder.step (Holder.step (Holder.step (Holder.step (Holder.initState sampleName)
        .shutdownTrigger) .lingerFire) .serverClosed) .shutdownTrigger).shutdownStarts
      = 2
    ∧ (Holder.step (Holder.step (Holder.step (Holder.step (Holder.step (Holder.step
        (Holder.initState sampleName)
        .shutdownTrigger) .lingerFire) .serverClosed) .shutdownTrigger) .lingerFire)
        .serverClosed).removeSessionRuns = 2
    ∧ (Holder.step (Holder.step (Holder.step (Holder.step (Holder.step (Holder.step
        (Holder.initState sampleName)
        .shutdownTrigger) .lingerFire) .serverClosed) .shutdownTrigger) .lingerFire)
        .serverClosed).shutdownResolves = 2 := by
  decide
